import Mathlib

/-!
# htmx-hugo demo server (`server.go`): a shallow embedding

The Go program is a small `net/http` server.  This file embeds

* the data model (`Ability`, `Pokemon`),
* the handlers `cors`, `helloWorld`, `helloWorldForm`, the helper `ise` and the
  upstream client `getPokemonData`,
* the parts of the Go standard library those functions rely on
  (`net/http` response-writer bookkeeping, `unicode/utf8`, `strconv`,
  `encoding/json` for the `Pokemon` schema),

and proves properties of them.

Conventions.  A Go `string`/`[]byte` is a list of bytes, each byte a `Nat`
(`GoString`).  Go `int` is the 64-bit signed integer; it is an `Int` here and
the range check appears where the library performs one.  A Go `error` is its
message; `Option GoString` is an `error` value that may be `nil`.
-/

namespace Server

/-! ## Bytes, runes and `unicode/utf8` -/

/-- A Go string or byte slice: a sequence of bytes. -/
abbrev GoString := List Nat

/-- The rune U+FFFD, `utf8.RuneError` / `unicode.ReplacementChar`. -/
def RuneError : Nat := 0xFFFD

/-- Go `utf8.AppendRune` (equivalently `utf8.EncodeRune`): the UTF-8 encoding of
rune `r`; runes out of range and surrogates encode as U+FFFD. -/
def appendRune (r : Nat) : GoString :=
  if r ≤ 0x7F then [r]
  else if r ≤ 0x7FF then [0xC0 ||| (r >>> 6), 0x80 ||| (r &&& 0x3F)]
  else if r > 0x10FFFF ∨ (0xD800 ≤ r ∧ r ≤ 0xDFFF) then [0xEF, 0xBF, 0xBD]
  else if r ≤ 0xFFFF then
    [0xE0 ||| (r >>> 12), 0x80 ||| ((r >>> 6) &&& 0x3F), 0x80 ||| (r &&& 0x3F)]
  else
    [0xF0 ||| (r >>> 18), 0x80 ||| ((r >>> 12) &&& 0x3F),
     0x80 ||| ((r >>> 6) &&& 0x3F), 0x80 ||| (r &&& 0x3F)]

/-- UTF-8 bytes of a sequence of Unicode scalar values. -/
def bytesOfChars : List Char → GoString
  | [] => []
  | c :: cs => appendRune c.toNat ++ bytesOfChars cs

/-- The bytes of a Go string literal (Go source text is UTF-8). -/
def str (s : String) : GoString := bytesOfChars s.data

/-- Go `utf8.first`: information about the first byte of a UTF-8 sequence.
`0xF0` marks ASCII, `0xF1` an invalid first byte; otherwise the low three bits
are the sequence length and the high four index `acceptRanges`. -/
def first (b : Nat) : Nat :=
  if b < 0x80 then 0xF0
  else if b < 0xC2 then 0xF1
  else if b < 0xE0 then 0x02
  else if b = 0xE0 then 0x13
  else if b < 0xED then 0x03
  else if b = 0xED then 0x23
  else if b < 0xF0 then 0x03
  else if b = 0xF0 then 0x34
  else if b < 0xF4 then 0x04
  else if b = 0xF4 then 0x44
  else 0xF1

/-- Go `utf8.acceptRanges`: allowed range of the second byte. -/
def acceptRanges (i : Nat) : Nat × Nat :=
  if i = 0 then (0x80, 0xBF)
  else if i = 1 then (0xA0, 0xBF)
  else if i = 2 then (0x80, 0x9F)
  else if i = 3 then (0x90, 0xBF)
  else if i = 4 then (0x80, 0x8F)
  else (0, 0)

/-- Go `utf8.DecodeRune`: the first rune of `p` and its width in bytes;
`(RuneError, 1)` on an invalid encoding, `(RuneError, 0)` on empty input. -/
def decodeRune (p : GoString) : Nat × Nat :=
  match p with
  | [] => (RuneError, 0)
  | p0 :: _ =>
    let x := first p0
    if x ≥ 0xF0 then (if x = 0xF0 then p0 else RuneError, 1)
    else
      let sz := x &&& 7
      let accept := acceptRanges (x >>> 4)
      if p.length < sz then (RuneError, 1)
      else
        let b1 := p.getD 1 0
        if b1 < accept.1 ∨ accept.2 < b1 then (RuneError, 1)
        else if sz ≤ 2 then (((p0 &&& 0x1F) <<< 6) ||| (b1 &&& 0x3F), 2)
        else
          let b2 := p.getD 2 0
          if b2 < 0x80 ∨ 0xBF < b2 then (RuneError, 1)
          else if sz ≤ 3 then
            (((p0 &&& 0x0F) <<< 12) ||| ((b1 &&& 0x3F) <<< 6) ||| (b2 &&& 0x3F), 3)
          else
            let b3 := p.getD 3 0
            if b3 < 0x80 ∨ 0xBF < b3 then (RuneError, 1)
            else
              (((p0 &&& 0x07) <<< 18) ||| ((b1 &&& 0x3F) <<< 12) |||
                ((b2 &&& 0x3F) <<< 6) ||| (b3 &&& 0x3F), 4)

/-- Loop of Go `utf8.Valid`: every decoding step yields a rune other than the
width-1 `RuneError`.  The first argument bounds the number of steps. -/
def validFrom : Nat → GoString → Bool
  | _, [] => true
  | 0, _ :: _ => false
  | n + 1, p0 :: t =>
    let d := decodeRune (p0 :: t)
    if d.1 = RuneError ∧ d.2 = 1 then false
    else validFrom n ((p0 :: t).drop d.2)

/-- Go `utf8.Valid`: `p` consists entirely of valid UTF-8-encoded runes. -/
def utf8Valid (p : GoString) : Bool := validFrom p.length p

/-! ## `strconv`: decimal integers -/

/-- Decimal digits of `n`, most significant first, prepended to `acc`
(the digit loop of `strconv.formatBits`).  The first argument bounds the
number of digits. -/
def natDigits : Nat → Nat → GoString → GoString
  | 0, _, acc => acc
  | f + 1, n, acc =>
    if n / 10 = 0 then (48 + n % 10) :: acc
    else natDigits f (n / 10) ((48 + n % 10) :: acc)

/-- Go `strconv.FormatInt(n, 10)`, which is also what `%d` prints. -/
def formatInt (n : Int) : GoString :=
  if n < 0 then 45 :: natDigits (n.natAbs + 1) n.natAbs []
  else natDigits (n.natAbs + 1) n.natAbs []

/-- ASCII decimal digit. -/
def isDigit (c : Nat) : Bool := 48 ≤ c && c ≤ 57

/-- Value of a string of decimal digits. -/
def digitsValue (ds : GoString) : Nat := ds.foldl (fun a d => 10 * a + (d - 48)) 0

/-- Go `strconv.ParseInt(s, 10, 64)`: optional sign, at least one decimal digit,
nothing else, and the value must fit in 64 bits; `none` is a non-nil error. -/
def parseInt (s : GoString) : Option Int :=
  match s with
  | [] => none
  | c :: t =>
    let neg := c = 45
    let ds := if c = 43 ∨ c = 45 then t else s
    if ds = [] ∨ ¬ ds.all isDigit then none
    else
      let v : Int := if neg then -(digitsValue ds : Int) else (digitsValue ds : Int)
      if v < -(2 ^ 63 : Int) ∨ v > (2 ^ 63 : Int) - 1 then none else some v

/-! ## Data model (`server.go`, lines 18–30) -/

/-- The anonymous struct held by field `Ability` of Go type `Ability`:
`struct { Name string; URL string }` with JSON keys `name` and `url`. -/
structure AbilityInfo where
  Name : GoString
  URL : GoString
deriving DecidableEq, Repr

set_option linter.dupNamespace false in
/-- Go `type Ability struct`, JSON keys `ability`, `is_hidden`, `slot`. -/
structure Ability where
  Ability : AbilityInfo
  IsHidden : Bool
  Slot : Int
deriving DecidableEq, Repr

/-- Go `type Pokemon struct`, JSON keys `abilities`, `height`.  A Go slice is
either `nil` (`none`) or a possibly empty sequence (`some l`); the two marshal
differently (`null` and `[]`). -/
structure Pokemon where
  Abilities : Option (List Ability)
  Height : Int
deriving DecidableEq, Repr

/-- The zero value of the anonymous inner struct. -/
def AbilityInfo.zero : AbilityInfo := { Name := [], URL := [] }

/-- The zero value `Ability{}`. -/
def Ability.zero : Server.Ability := { Ability := AbilityInfo.zero, IsHidden := false, Slot := 0 }

/-- The zero value `Pokemon{}`: nil abilities, height 0. -/
def Pokemon.zero : Pokemon := { Abilities := none, Height := 0 }

/-! ## `encoding/json`: marshalling a `Pokemon` -/

/-- The table `hex = "0123456789abcdef"` of `encoding/json`. -/
def hex (n : Nat) : Nat := (str "0123456789abcdef").getD n 0

/-- Go `htmlSafeSet`: ASCII bytes that `Marshal` copies unescaped (it escapes
HTML by default): everything from space to `0x7f` except the double quote, `&`, `<`, `>`
and the backslash. -/
def htmlSafe (b : Nat) : Bool :=
  0x20 ≤ b && b < 0x80 && b != 34 && b != 38 && b != 60 && b != 62 && b != 92

/-- One iteration of the loop of Go `appendString(dst, src, escapeHTML = true)`
at the non-empty remainder `b :: t` of `src`: the bytes the iteration emits and
what remains of `src`.  Control characters, the quote, the backslash and `<`,
`>`, `&` are escaped; a byte that does not start a valid UTF-8 sequence becomes
the six-byte escape of U+FFFD; U+2028 and U+2029 become their six-byte
escapes; everything else is copied.  (Backspace and form feed use the two-byte
escapes of Go 1.22; older releases wrote the six-byte form, which decodes to
the same byte.) -/
def appendStringStep (b : Nat) (t : GoString) : GoString × GoString :=
  if b < 0x80 then
    if htmlSafe b then ([b], t)
    else if b = 92 ∨ b = 34 then ([92, b], t)
    else if b = 8 then ([92, 98], t)
    else if b = 12 then ([92, 102], t)
    else if b = 10 then ([92, 110], t)
    else if b = 13 then ([92, 114], t)
    else if b = 9 then ([92, 116], t)
    else ([92, 117, 48, 48, hex (b >>> 4), hex (b &&& 0xF)], t)
  else
    let d := decodeRune ((b :: t).take 4)
    if d.1 = RuneError ∧ d.2 = 1 then (str "\\ufffd", t)
    else if d.1 = 0x2028 ∨ d.1 = 0x2029 then
      (str "\\u202" ++ [hex (d.1 &&& 0xF)], (b :: t).drop d.2)
    else ((b :: t).take d.2, (b :: t).drop d.2)

/-- The loop of Go `appendString`: the JSON string body for `src`, without the
surrounding quotes.  The first argument bounds the number of iterations. -/
def appendStringBody : Nat → GoString → GoString
  | _, [] => []
  | 0, _ :: _ => []
  | n + 1, b :: t =>
    (appendStringStep b t).1 ++ appendStringBody n (appendStringStep b t).2

/-- Go `appendString`: the quoted JSON string for `s`. -/
def appendString (s : GoString) : GoString :=
  34 :: appendStringBody s.length s ++ [34]

/-- JSON text of a Go `bool`. -/
def marshalBool (b : Bool) : GoString := if b then str "true" else str "false"

/-- Go `json.Marshal` at the anonymous inner struct. -/
def marshalAbilityInfo (a : AbilityInfo) : GoString :=
  str "\x7b\"name\":" ++ appendString a.Name ++ str ",\"url\":" ++ appendString a.URL ++ str "\x7d"

/-- Go `json.Marshal` at type `Ability`: fields in declaration order. -/
def marshalAbility (a : Ability) : GoString :=
  str "\x7b\"ability\":" ++ marshalAbilityInfo a.Ability ++
  str ",\"is_hidden\":" ++ marshalBool a.IsHidden ++
  str ",\"slot\":" ++ formatInt a.Slot ++ str "\x7d"

/-- Elements of a non-empty JSON array after the first: each preceded by a comma. -/
def marshalAbilityTail : List Ability → GoString
  | [] => []
  | a :: l => 44 :: marshalAbility a ++ marshalAbilityTail l

/-- Go `json.Marshal` at type `[]Ability`: `null` for the nil slice. -/
def marshalAbilities : Option (List Ability) → GoString
  | none => str "null"
  | some [] => str "[]"
  | some (a :: l) => 91 :: marshalAbility a ++ marshalAbilityTail l ++ [93]

/-- Go `json.Marshal` at type `Pokemon` (compact form).  It cannot fail: the
type has no channel, function, cyclic or custom-marshalled part. -/
def jsonMarshal (p : Pokemon) : GoString :=
  str "\x7b\"abilities\":" ++ marshalAbilities p.Abilities ++
  str ",\"height\":" ++ formatInt p.Height ++ str "\x7d"

/-- Go `appendNewline(dst, "", "  ", depth)`: a newline and `depth` indents. -/
def appendNewline (depth : Nat) : GoString := 10 :: List.replicate (2 * depth) 32

/-- Go `json.Indent(dst, src, "", "  ")` on compact JSON text `src`: bytes inside
string literals are copied, white space outside them is dropped, a newline and
indentation follow `[`, the opening brace and `,` and precede the closing
bracket or brace (not for an empty array or object), and a space follows `:`.
`inStr` and `esc` track string literals, `needIndent` is the pending indent
after an opening bracket. -/
def indentAux : GoString → Bool → Bool → Bool → Nat → GoString
  | [], _, _, _, _ => []
  | c :: t, inStr, esc, needIndent, depth =>
    if inStr then
      if esc then c :: indentAux t true false needIndent depth
      else if c = 92 then c :: indentAux t true true needIndent depth
      else if c = 34 then c :: indentAux t false false needIndent depth
      else c :: indentAux t true false needIndent depth
    else if c = 32 ∨ c = 9 ∨ c = 13 ∨ c = 10 then indentAux t false false needIndent depth
    else if c = 125 ∨ c = 93 then
      if needIndent then c :: indentAux t false false false depth
      else appendNewline (depth - 1) ++ c :: indentAux t false false false (depth - 1)
    else
      let depth1 := if needIndent then depth + 1 else depth
      let pre := if needIndent then appendNewline depth1 else []
      if c = 123 ∨ c = 91 then pre ++ c :: indentAux t false false true depth1
      else if c = 44 then pre ++ c :: appendNewline depth1 ++ indentAux t false false false depth1
      else if c = 58 then pre ++ c :: 32 :: indentAux t false false false depth1
      else if c = 34 then pre ++ c :: indentAux t true false false depth1
      else pre ++ c :: indentAux t false false false depth1

/-- Go `json.MarshalIndent(p, "", "  ")` at type `Pokemon`: `Marshal` followed
by `Indent`; the error is always nil. -/
def jsonMarshalIndent (p : Pokemon) : GoString × Option GoString :=
  (indentAux (jsonMarshal p) false false false 0, none)

/-! ## `encoding/json`: reading JSON text

`json.Unmarshal` first validates the whole input with its scanner
(`checkValid`) and then decodes it into the target value.  The model follows
the same two phases: `jsonParse` accepts exactly the texts the scanner accepts
and returns the value tree, `decodePokemon` stores a tree into a `Pokemon`.
`Unmarshal` returns a non-nil error if a phase fails; `getPokemonData` then
discards the partially filled record. -/

/-- A parsed JSON value.  Numbers keep their literal text, strings and object
keys are already unquoted. -/
inductive JSON where
  | null
  | bool (b : Bool)
  | num (lit : GoString)
  | str (s : GoString)
  | arr (elems : List JSON)
  | obj (members : List (GoString × JSON))

/-- The two kinds of error `json.Unmarshal` reports for a `Pokemon` target. -/
inductive JsonError where
  /-- Type `*json.SyntaxError`: the input is not one JSON value. -/
  | invalid
  /-- Type `*json.UnmarshalTypeError`: a value does not fit its Go field. -/
  | mismatch
deriving DecidableEq, Repr

/-- The message of a JSON error.  The library's messages also name an offset or
a Go type; they are summarised by error kind. -/
def JsonError.Error : JsonError → GoString
  | .invalid => str "invalid character in JSON input"
  | .mismatch => str "json: cannot unmarshal value into Go struct field"

/-- Scanner `isSpace`: space, tab, carriage return, line feed. -/
def isSpace (c : Nat) : Bool := c = 32 || c = 9 || c = 13 || c = 10

/-- Drop leading JSON white space. -/
def skipSpace : GoString → GoString
  | [] => []
  | c :: t => if isSpace c then skipSpace t else c :: t

/-- Hexadecimal digit, either case. -/
def isHex (c : Nat) : Bool :=
  (48 ≤ c && c ≤ 57) || (97 ≤ c && c ≤ 102) || (65 ≤ c && c ≤ 70)

/-- The scanner's states inside a string literal: `stateInString`,
`stateInStringEsc`, and `stateInStringEscU`, `…U1`, `…U12`, `…U123` as
`hex 3`, `hex 2`, `hex 1`, `hex 0` (the number of hex digits still to come
after the next one). -/
inductive StringState where
  | inString
  | inStringEsc
  | hex (more : Nat)
deriving DecidableEq, Repr

/-- The scanner inside a string literal, one byte at a time: returns the raw
literal up to the closing quote and the input after it.  Control bytes and
malformed escapes are rejected. -/
def scanStringFrom : StringState → GoString → Option (GoString × GoString)
  | _, [] => none
  | .inString, c :: t =>
    if c = 34 then some ([], t)
    else if c = 92 then (scanStringFrom .inStringEsc t).map (fun r => (c :: r.1, r.2))
    else if c < 32 then none
    else (scanStringFrom .inString t).map (fun r => (c :: r.1, r.2))
  | .inStringEsc, c :: t =>
    if c = 98 ∨ c = 102 ∨ c = 110 ∨ c = 114 ∨ c = 116 ∨ c = 92 ∨ c = 47 ∨ c = 34 then
      (scanStringFrom .inString t).map (fun r => (c :: r.1, r.2))
    else if c = 117 then (scanStringFrom (.hex 3) t).map (fun r => (c :: r.1, r.2))
    else none
  | .hex 0, c :: t =>
    if isHex c then (scanStringFrom .inString t).map (fun r => (c :: r.1, r.2)) else none
  | .hex (k + 1), c :: t =>
    if isHex c then (scanStringFrom (.hex k) t).map (fun r => (c :: r.1, r.2)) else none

/-- The scanner on the input that follows an opening quote. -/
def scanString (inp : GoString) : Option (GoString × GoString) :=
  scanStringFrom .inString inp

/-- Value of one hexadecimal digit. -/
def hexValue (c : Nat) : Nat :=
  if 48 ≤ c ∧ c ≤ 57 then c - 48
  else if 97 ≤ c ∧ c ≤ 102 then c - 97 + 10
  else c - 65 + 10

/-- Go `getu4`: the rune of a six-byte escape at the start of `s`, `none`
(Go: `-1`) if `s` does not start with a backslash, `u` and four hex digits. -/
def getu4 (s : GoString) : Option Nat :=
  match s with
  | 92 :: 117 :: h1 :: h2 :: h3 :: h4 :: _ =>
    if isHex h1 ∧ isHex h2 ∧ isHex h3 ∧ isHex h4 then
      some (((hexValue h1 * 16 + hexValue h2) * 16 + hexValue h3) * 16 + hexValue h4)
    else none
  | _ => none

/-- Go `utf16.DecodeRune(r1, r2)`: the rune of a surrogate pair, U+FFFD if the
pair is not valid. -/
def utf16DecodeRune (r1 : Nat) (r2 : Option Nat) : Nat :=
  match r2 with
  | none => RuneError
  | some r2 =>
    if 0xD800 ≤ r1 ∧ r1 < 0xDC00 ∧ 0xDC00 ≤ r2 ∧ r2 < 0xE000 then
      (((r1 - 0xD800) <<< 10) ||| (r2 - 0xDC00)) + 0x10000
    else RuneError

/-- One iteration of the main loop of Go `unquoteBytes` at the non-empty
remainder `c :: t` of the literal: the bytes the iteration produces and what
remains, or `none` if the literal is malformed.  An escape is replaced by the
bytes it denotes (a six-byte escape of a surrogate takes the following escape
with it if the two form a pair, and otherwise denotes U+FFFD); any other text
is coerced to well-formed UTF-8. -/
def unquoteStep (c : Nat) (t : GoString) : Option (GoString × GoString) :=
  if c = 92 then
    match t with
    | [] => none
    | e :: t1 =>
      if e = 34 ∨ e = 92 ∨ e = 47 ∨ e = 39 then some ([e], t1)
      else if e = 98 then some ([8], t1)
      else if e = 102 then some ([12], t1)
      else if e = 110 then some ([10], t1)
      else if e = 114 then some ([13], t1)
      else if e = 116 then some ([9], t1)
      else if e = 117 then
        match getu4 (c :: t) with
        | none => none
        | some rr =>
          if 0xD800 ≤ rr ∧ rr < 0xE000 then
            if utf16DecodeRune rr (getu4 ((c :: t).drop 6)) ≠ RuneError then
              some (appendRune (utf16DecodeRune rr (getu4 ((c :: t).drop 6))),
                (c :: t).drop 12)
            else some (appendRune RuneError, (c :: t).drop 6)
          else some (appendRune rr, (c :: t).drop 6)
      else none
  else if c = 34 ∨ c < 32 then none
  else if c < 0x80 then some ([c], t)
  else some (appendRune (decodeRune (c :: t)).1, (c :: t).drop (decodeRune (c :: t)).2)

/-- The main loop of Go `unquoteBytes` on the literal between the quotes.  (The
library first skips an escape-free valid prefix without copying it; the loop
produces those bytes unchanged.)  The first argument bounds the number of
iterations. -/
def unquoteBytes : Nat → GoString → Option GoString
  | _, [] => some []
  | 0, _ :: _ => none
  | n + 1, c :: t =>
    match unquoteStep c t with
    | none => none
    | some r => (unquoteBytes n r.2).map (r.1 ++ ·)

/-- Go `unquoteBytes` applied to a raw string literal. -/
def unquote (lit : GoString) : Option GoString := unquoteBytes lit.length lit

/-- The longest run of decimal digits at the start of the input, and the rest. -/
def scanDigits : GoString → GoString × GoString
  | [] => ([], [])
  | c :: t => if isDigit c then ((scanDigits t).1.cons c, (scanDigits t).2) else ([], c :: t)

/-- Scanner states `stateNeg`, `state0`, `state1`: optional minus sign, then
`0` or a non-zero digit followed by digits. -/
def scanIntPart (inp : GoString) : Option (GoString × GoString) :=
  let neg : GoString := if inp.head? = some 45 then [45] else []
  let r0 := if inp.head? = some 45 then inp.tail else inp
  match r0 with
  | [] => none
  | d :: t =>
    if d = 48 then some (neg ++ [48], t)
    else if 49 ≤ d ∧ d ≤ 57 then some (neg ++ d :: (scanDigits t).1, (scanDigits t).2)
    else none

/-- Scanner states `stateDot`, `stateDot0`: an optional fraction, with at least
one digit after the point. -/
def scanFrac (inp : GoString) : Option (GoString × GoString) :=
  match inp with
  | 46 :: t =>
    if (scanDigits t).1 = [] then none else some (46 :: (scanDigits t).1, (scanDigits t).2)
  | _ => some ([], inp)

/-- Scanner states `stateE`, `stateESign`, `stateE0`: an optional exponent, with
an optional sign and at least one digit. -/
def scanExp (inp : GoString) : Option (GoString × GoString) :=
  match inp with
  | [] => some ([], [])
  | e :: t =>
    if e = 101 ∨ e = 69 then
      let sign : GoString := if t.head? = some 43 ∨ t.head? = some 45 then t.take 1 else []
      let t1 := if t.head? = some 43 ∨ t.head? = some 45 then t.tail else t
      if (scanDigits t1).1 = [] then none
      else some (e :: sign ++ (scanDigits t1).1, (scanDigits t1).2)
    else some ([], inp)

/-- A JSON number literal at the start of the input, and the rest. -/
def scanNumber (inp : GoString) : Option (GoString × GoString) :=
  match scanIntPart inp with
  | none => none
  | some (i, r1) =>
    match scanFrac r1 with
    | none => none
    | some (f, r2) =>
      match scanExp r2 with
      | none => none
      | some (e, r3) => some (i ++ f ++ e, r3)

/-- Remove the expected bytes `pre` from the front of the input. -/
def expect : GoString → GoString → Option GoString
  | [], inp => some inp
  | _ :: _, [] => none
  | p :: ps, c :: t => if p = c then expect ps t else none

/-- Scanner limit `maxNestingDepth`. -/
def maxNestingDepth : Nat := 10000

mutual
/-- One JSON value at the start of the input (no leading white space), and the
input after it.  `depth` is the number of enclosing arrays and objects; the
first argument bounds the recursion and is never exhausted when it exceeds the
length of the input. -/
def parseValue : Nat → Nat → GoString → Option (JSON × GoString)
  | 0, _, _ => none
  | _ + 1, _, [] => none
  | fuel + 1, depth, c :: rest =>
    if c = 123 then
      if depth ≥ maxNestingDepth then none
      else
        match skipSpace rest with
        | [] => none
        | c1 :: rest1 =>
          if c1 = 125 then some (JSON.obj [], rest1)
          else parseMembers fuel (depth + 1) (c1 :: rest1) []
    else if c = 91 then
      if depth ≥ maxNestingDepth then none
      else
        match skipSpace rest with
        | [] => none
        | c1 :: rest1 =>
          if c1 = 93 then some (JSON.arr [], rest1)
          else
            match parseValue fuel (depth + 1) (c1 :: rest1) with
            | none => none
            | some (v, r) => parseElems fuel (depth + 1) r [v]
    else if c = 34 then
      match scanString rest with
      | none => none
      | some (lit, r) => (unquote lit).map (fun s => (JSON.str s, r))
    else if c = 45 ∨ isDigit c then
      (scanNumber (c :: rest)).map (fun r => (JSON.num r.1, r.2))
    else if c = 116 then (expect (str "rue") rest).map (fun r => (JSON.bool true, r))
    else if c = 102 then (expect (str "alse") rest).map (fun r => (JSON.bool false, r))
    else if c = 110 then (expect (str "ull") rest).map (fun r => (JSON.null, r))
    else none
/-- The rest of an array after one of its elements: a comma and another element,
or the closing bracket.  `acc` holds the elements read so far. -/
def parseElems : Nat → Nat → GoString → List JSON → Option (JSON × GoString)
  | 0, _, _, _ => none
  | fuel + 1, depth, inp, acc =>
    match skipSpace inp with
    | [] => none
    | c :: rest =>
      if c = 44 then
        match parseValue fuel depth (skipSpace rest) with
        | none => none
        | some (v, r) => parseElems fuel depth r (acc ++ [v])
      else if c = 93 then some (JSON.arr acc, rest)
      else none
/-- The members of an object from a key onwards (no leading white space): a
string, a colon, a value, then a comma and another member or the closing
brace.  `acc` holds the members read so far. -/
def parseMembers : Nat → Nat → GoString → List (GoString × JSON) → Option (JSON × GoString)
  | 0, _, _, _ => none
  | _ + 1, _, [], _ => none
  | fuel + 1, depth, c :: rest, acc =>
    if c ≠ 34 then none
    else
      match scanString rest with
      | none => none
      | some (lit, r1) =>
        match unquote lit with
        | none => none
        | some key =>
          match skipSpace r1 with
          | [] => none
          | c1 :: r2 =>
            if c1 ≠ 58 then none
            else
              match parseValue fuel depth (skipSpace r2) with
              | none => none
              | some (v, r3) =>
                match skipSpace r3 with
                | [] => none
                | c2 :: r4 =>
                  if c2 = 44 then parseMembers fuel depth (skipSpace r4) (acc ++ [(key, v)])
                  else if c2 = 125 then some (JSON.obj (acc ++ [(key, v)]), r4)
                  else none
end

/-- The whole input is one JSON value surrounded by optional white space
(Go `checkValid`). -/
def jsonParse (data : GoString) : Option JSON :=
  match parseValue (data.length + 1) 0 (skipSpace data) with
  | none => none
  | some (v, rest) => if skipSpace rest = [] then some v else none

/-! ## `encoding/json`: storing a value tree into a `Pokemon`

A JSON `null` leaves a struct, string, bool or int untouched and sets a slice
to nil.  An object is stored member by member, in input order, into the
current value of the struct, so a repeated key is decoded over what the
earlier occurrence left.  Keys that match no field are skipped.  A value of
the wrong JSON kind, or a number that is not a 64-bit decimal integer, is an
`UnmarshalTypeError`. -/

/-- Go `foldRune` on the runes that matter for ASCII field names: U+017F (long
s) and U+212A (Kelvin sign) are the only non-ASCII runes whose simple case
folding class contains an ASCII letter.  Every other non-ASCII rune folds to a
non-ASCII rune and is left as it is here. -/
def foldRune (r : Nat) : Nat :=
  if r = 0x17F then 0x53 else if r = 0x212A then 0x4B else r

/-- Go `appendFoldedName`: ASCII letters are upper-cased, other runes are
decoded, folded and re-encoded.  The first argument bounds the iterations. -/
def appendFoldedName : Nat → GoString → GoString
  | _, [] => []
  | 0, _ :: _ => []
  | n + 1, c :: t =>
    if c < 0x80 then
      (if 97 ≤ c ∧ c ≤ 122 then c - 32 else c) :: appendFoldedName n t
    else
      let d := decodeRune (c :: t)
      appendRune (foldRune d.1) ++ appendFoldedName n ((c :: t).drop d.2)

/-- Go `foldName`: the case-folded form of an object key or field name. -/
def foldName (s : GoString) : GoString := appendFoldedName s.length s

/-- The struct field an object key selects: the field with exactly that JSON
name, otherwise the first field whose name equals the key under case folding. -/
def fieldIndex (names : List GoString) (key : GoString) : Option Nat :=
  match names.findIdx? (fun n => n = key) with
  | some i => some i
  | none => names.findIdx? (fun n => foldName n = foldName key)

/-- Store a JSON value into a Go `string`. -/
def decodeString (cur : GoString) : JSON → Option GoString
  | .null => some cur
  | .str s => some s
  | _ => none

/-- Store a JSON value into a Go `bool`. -/
def decodeBool (cur : Bool) : JSON → Option Bool
  | .null => some cur
  | .bool b => some b
  | _ => none

/-- Store a JSON value into a Go `int`: the literal must satisfy
`strconv.ParseInt(lit, 10, 64)`. -/
def decodeInt (cur : Int) : JSON → Option Int
  | .null => some cur
  | .num lit => parseInt lit
  | _ => none

/-- Store one object member into the anonymous inner struct. -/
def decodeAbilityInfoField (cur : AbilityInfo) (m : GoString × JSON) : Option AbilityInfo :=
  match fieldIndex [str "name", str "url"] m.1 with
  | some 0 => (decodeString cur.Name m.2).map (fun s => { cur with Name := s })
  | some 1 => (decodeString cur.URL m.2).map (fun s => { cur with URL := s })
  | _ => some cur

/-- Store a JSON value into the anonymous inner struct. -/
def decodeAbilityInfo (cur : AbilityInfo) : JSON → Option AbilityInfo
  | .null => some cur
  | .obj ms => ms.foldlM decodeAbilityInfoField cur
  | _ => none

/-- Store one object member into an `Ability`. -/
def decodeAbilityField (cur : Ability) (m : GoString × JSON) : Option Ability :=
  match fieldIndex [str "ability", str "is_hidden", str "slot"] m.1 with
  | some 0 => (decodeAbilityInfo cur.Ability m.2).map (fun a => { cur with Ability := a })
  | some 1 => (decodeBool cur.IsHidden m.2).map (fun b => { cur with IsHidden := b })
  | some 2 => (decodeInt cur.Slot m.2).map (fun n => { cur with Slot := n })
  | _ => some cur

/-- Store a JSON value into an `Ability`. -/
def decodeAbility (cur : Ability) : JSON → Option Ability
  | .null => some cur
  | .obj ms => ms.foldlM decodeAbilityField cur
  | _ => none

/-- Store the elements of a JSON array into a slice: element `i` is decoded
into what the slice's backing store holds at index `i`, a fresh zero value
beyond it. -/
def decodeElems : List Ability → List JSON → Option (List Ability)
  | _, [] => some []
  | store, j :: js =>
    match decodeAbility (store.headD Ability.zero) j with
    | none => none
    | some a => (decodeElems store.tail js).map (a :: ·)

/-- Store a JSON value into a `[]Ability`.  `stale` holds the elements of the
backing store beyond the slice's length, which a later, longer array decodes
over.  `null` gives the nil slice, an empty array a fresh empty slice. -/
def decodeAbilities (cur : Option (List Ability)) (stale : List Ability) :
    JSON → Option (Option (List Ability) × List Ability)
  | .null => some (none, [])
  | .arr js =>
    match js with
    | [] => some (some [], [])
    | _ :: _ =>
      (decodeElems (cur.getD [] ++ stale) js).map
        (fun l => (some l, (cur.getD [] ++ stale).drop js.length))
  | _ => none

/-- Store one object member into a `Pokemon` (paired with the stale part of the
backing store of `Abilities`). -/
def decodePokemonField (cur : Pokemon × List Ability) (m : GoString × JSON) :
    Option (Pokemon × List Ability) :=
  match fieldIndex [str "abilities", str "height"] m.1 with
  | some 0 =>
    (decodeAbilities cur.1.Abilities cur.2 m.2).map
      (fun r => ({ cur.1 with Abilities := r.1 }, r.2))
  | some 1 => (decodeInt cur.1.Height m.2).map (fun n => ({ cur.1 with Height := n }, cur.2))
  | _ => some cur

/-- Store a JSON value into a `Pokemon`. -/
def decodePokemon (cur : Pokemon × List Ability) : JSON → Option (Pokemon × List Ability)
  | .null => some cur
  | .obj ms => ms.foldlM decodePokemonField cur
  | _ => none

/-- Go `json.Unmarshal(data, &pokemonData)` with `pokemonData` the zero
`Pokemon`: the decoded record, or the error. -/
def jsonUnmarshal (data : GoString) : Except JsonError Pokemon :=
  match jsonParse data with
  | none => .error .invalid
  | some j =>
    match decodePokemon (Pokemon.zero, []) j with
    | none => .error .mismatch
    | some r => .ok r.1

/-! ## `net/http`: requests and the response writer -/

/-- Go `url.Values` (`map[string][]string`) as an association list; the first
entry for a key is the map's entry. -/
abbrev Values := List (GoString × List GoString)

/-- Go `url.Values.Get`: the first value for `key`, or the empty string. -/
def Values.Get (v : Values) (key : GoString) : GoString :=
  match v.lookup key with
  | some (x :: _) => x
  | _ => []

/-- Go `http.Header` (`map[string][]string`) as an association list. -/
abbrev Header := List (GoString × List GoString)

/-- Go `validHeaderFieldByte`: the token characters of RFC 7230. -/
def validHeaderFieldByte (c : Nat) : Bool :=
  (97 ≤ c && c ≤ 122) || (65 ≤ c && c ≤ 90) || (48 ≤ c && c ≤ 57) ||
  c = 45 || c = 95 || c = 46 || c = 33 || c = 35 || c = 36 || c = 37 || c = 38 ||
  c = 39 || c = 42 || c = 43 || c = 94 || c = 96 || c = 124 || c = 126

/-- The loop of Go `canonicalMIMEHeaderKey`: upper case at the start and after
each dash, lower case elsewhere. -/
def canonicalize : Bool → GoString → GoString
  | _, [] => []
  | upper, c :: t =>
    if upper ∧ 97 ≤ c ∧ c ≤ 122 then (c - 32) :: canonicalize false t
    else if ¬ upper ∧ 65 ≤ c ∧ c ≤ 90 then (c + 32) :: canonicalize false t
    else c :: canonicalize (c = 45) t

/-- Go `textproto.CanonicalMIMEHeaderKey`: a key with a byte that is not a token
character is returned unchanged. -/
def CanonicalMIMEHeaderKey (s : GoString) : GoString :=
  if s.all validHeaderFieldByte then canonicalize true s else s

/-- Go `Header.Set`: the entry for the canonical key becomes the single value. -/
def Header.Set (h : Header) (key value : GoString) : Header :=
  (CanonicalMIMEHeaderKey key, [value]) ::
    h.filter (fun e => e.1 ≠ CanonicalMIMEHeaderKey key)

/-- Go `Header.Get`: the first value for the canonical key, or the empty string. -/
def Header.Get (h : Header) (key : GoString) : GoString :=
  match h.lookup (CanonicalMIMEHeaderKey key) with
  | some (x :: _) => x
  | _ => []

/-- The map entry `h[key]` (nil when absent). -/
def Header.Values (h : Header) (key : GoString) : List GoString :=
  (h.lookup key).getD []

/-- What a handler has handed to its `http.ResponseWriter`: the header map
returned by `Header()`, the status code once the header has been written
(`none` before), the header map as it stood at that moment (the headers sent),
and the body bytes accepted so far.  Headers the server adds on its own
(`Date`, `Content-Type`, `Content-Length`) and the omission of the body on the
wire for a `HEAD` request are below this level. -/
structure ResponseWriter where
  header : Header
  status : Option Nat
  sentHeader : Header
  body : GoString
deriving DecidableEq, Repr

/-- The response writer a handler receives for a new request. -/
def ResponseWriter.fresh : ResponseWriter :=
  { header := [], status := none, sentHeader := [], body := [] }

/-- Go `ResponseWriter.WriteHeader` with a final status code (the handlers use
200, 204 and 500): the first call fixes the status code and the headers sent;
a later call is superfluous and changes nothing. -/
def ResponseWriter.WriteHeader (w : ResponseWriter) (code : Nat) : ResponseWriter :=
  match w.status with
  | some _ => w
  | none => { w with status := some code, sentHeader := w.header }

/-- Go `bodyAllowedForStatus`: no body with 1xx, 204 and 304. -/
def bodyAllowedForStatus (status : Nat) : Bool :=
  !((100 ≤ status && status ≤ 199) || status = 204 || status = 304)

/-- Go `ResponseWriter.Write`: if the header has not been written it is written
with status 200 first; the data is then appended to the body, unless the
status allows no body (the call then fails with `ErrBodyNotAllowed`). -/
def ResponseWriter.Write (w : ResponseWriter) (data : GoString) : ResponseWriter :=
  let w1 := w.WriteHeader 200
  if data = [] then w1
  else if bodyAllowedForStatus (w1.status.getD 200) then { w1 with body := w1.body ++ data }
  else w1

/-- The part of a `*http.Request` the handlers read: the method, the parsed
query string `r.URL.Query()`, and the outcome of `r.ParseForm()`: an error, or
the populated `r.Form` (body parameters first, then the query string). -/
structure Request where
  Method : GoString
  Query : Values
  ParseForm : Except GoString Values

/-- Everything a handler can affect: the response writer, the entries the
handler writes with `log.Printf` (in order, without the logger's time stamp),
and the value of a panic that ended the handler. -/
structure World where
  w : ResponseWriter
  log : List GoString
  panicked : Option GoString
deriving DecidableEq, Repr

/-- The state in which `net/http` starts a handler. -/
def World.fresh : World := { w := ResponseWriter.fresh, log := [], panicked := none }

/-- The statement `w.Header().Set(key, value)`. -/
def World.setHeader (s : World) (key value : GoString) : World :=
  { s with w := { s.w with header := s.w.header.Set key value } }

/-- Go `http.Handler`: `ServeHTTP(w, r)` as a state transformer. -/
abbrev Handler := Request → World → World

/-- An upstream response as `getPokemonData` sees it: the status code and the
outcome of `ioutil.ReadAll(resp.Body)`. -/
structure Response where
  StatusCode : Int
  Body : Except GoString GoString

/-- The template data `map[string]interface{}` built by `helloWorld`, with its
three keys `Name`, `PokemonData`, `PokemonName`. -/
structure TemplateData where
  Name : GoString
  PokemonData : Pokemon
  PokemonName : GoString
deriving DecidableEq, Repr

/-- A parsed `text/template`: `Execute` on the data gives the rendered bytes or
an error. -/
abbrev Template := TemplateData → Except GoString GoString

/-- What the handlers take from outside `server.go`: the network
(`http.Get`), the template file on disk (`template.ParseFiles`) and the
generated `templ` component `partials.HelloWorldGreeting`, whose `Render`
writes to the response writer and may return an error. -/
structure Env where
  httpGet : GoString → Except GoString Response
  parseFiles : GoString → Except GoString Template
  HelloWorldGreeting : GoString → ResponseWriter → ResponseWriter × Option GoString

/-! ## The functions of `server.go` -/

/-- Go `main.cors` (lines 42–58): sets the three CORS headers, answers an
`OPTIONS` request with 204 itself, and otherwise calls the wrapped handler. -/
def cors (h : Handler) : Handler := fun r s =>
  let s1 := s.setHeader (str "Access-Control-Allow-Origin") (str "*")
  let s2 := s1.setHeader (str "Access-Control-Allow-Methods") (str "GET, POST")
  let s3 := s2.setHeader (str "Access-Control-Allow-Headers")
    (str "Content-Type, hx-target, hx-current-url, hx-request")
  if r.Method = str "OPTIONS" then { s3 with w := s3.w.WriteHeader 204 }
  else h r s3

/-- Go `getPokemonData` (lines 110–135).  Returns the pair `(Pokemon, error)`. -/
def getPokemonData (httpGet : GoString → Except GoString Response)
    (pokemonName : GoString) : Pokemon × Option GoString :=
  let url := str "https://pokeapi.co/api/v2/pokemon/" ++ pokemonName
  match httpGet url with
  | .error err => (Pokemon.zero, some (str "failed to fetch Pokémon data: " ++ err))
  | .ok resp =>
    if resp.StatusCode ≠ 200 then
      (Pokemon.zero, some (str "received non-200 response: " ++ formatInt resp.StatusCode))
    else
      match resp.Body with
      | .error err => (Pokemon.zero, some (str "failed to read response body: " ++ err))
      | .ok body =>
        match jsonUnmarshal body with
        | .error err =>
          (Pokemon.zero, some (str "failed to unmarshal Pokémon data: " ++ err.Error))
        | .ok pokemonData => (pokemonData, none)

/-- Go `ise` (lines 183–186): writes the error text to the body, then calls
`WriteHeader(500)`. -/
def ise (err : GoString) (s : World) : World :=
  let s1 := { s with w := s.w.Write (str "error: " ++ err) }
  { s1 with w := s1.w.WriteHeader 500 }

set_option linter.unusedVariables false in
/-- Go `helloWorld` (lines 76–108).  The error returned by `getPokemonData` is
overwritten by that of `json.MarshalIndent` before it is read; `name` is
computed and not used again. -/
def helloWorld (env : Env) : Handler := fun r s =>
  let name := r.Query.Get (str "name")
  let name := if name = str "null" ∨ name = str "" then str "World" else name
  let pokemonName := str "ditto"
  let fetched := getPokemonData env.httpGet pokemonName
  let pokemonData := fetched.1
  let marshalled := jsonMarshalIndent pokemonData
  let s1 : World :=
    match marshalled.2 with
    | some err => { s with log := s.log ++ [str "Failed to marshal Pokémon data: " ++ err] }
    | none => { s with log := s.log ++ [str "Pokémon data: " ++ marshalled.1] }
  match env.parseFiles (str "partials/helloworld.html") with
  | .error err => { s1 with panicked := some err }
  | .ok tmpl =>
    match tmpl { Name := str "Linh", PokemonData := pokemonData, PokemonName := str "ditto" } with
    | .error errs => ise errs s1
    | .ok buff => { s1 with w := (s1.w.WriteHeader 200).Write buff }

set_option linter.unusedVariables false in
/-- Go `helloWorldForm` (lines 169–181). -/
def helloWorldForm (env : Env) : Handler := fun r s =>
  let name := str "World"
  match r.ParseForm with
  | .error err => ise err s
  | .ok form =>
    let name := form.Get (str "name")
    let rendered := env.HelloWorldGreeting name s.w
    match rendered.2 with
    | some _ => { s with w := rendered.1.WriteHeader 500 }
    | none => { s with w := rendered.1 }

/-! ## Sample inputs used by the concrete evaluations -/

/-- Whether `pat` occurs in `s` as a contiguous block. -/
def hasInfix (pat : GoString) : GoString → Bool
  | [] => pat.isEmpty
  | c :: t => pat.isPrefixOf (c :: t) || hasInfix pat t

/-- A template that renders the `Name` it is given inside a greeting. -/
def greetingTemplate : Template :=
  fun d => .ok (str "<p>Hello, " ++ d.Name ++ str "!</p>")

/-- A template whose execution fails. -/
def failingTemplate : Template :=
  fun _ => .error (str "template: helloworld.html: can't evaluate field")

/-- A greeting component that writes the name it is given and succeeds. -/
def greetingComponent (name : GoString) (w : ResponseWriter) :
    ResponseWriter × Option GoString :=
  (w.Write (str "<p>Hello, " ++ name ++ str "!</p>"), none)

/-- An environment with a fixed upstream answer and a fixed parsed template. -/
def sampleEnv (upstream : Except GoString Response) (t : Template) : Env :=
  { httpGet := fun _ => upstream
    parseFiles := fun _ => .ok t
    HelloWorldGreeting := greetingComponent }

/-- `GET /hello_world?name=Alice`. -/
def aliceRequest : Request :=
  { Method := str "GET"
    Query := [(str "name", [str "Alice"])]
    ParseForm := .ok [(str "name", [str "Alice"])] }

/-- `GET /hello_world` with query values `query`. -/
def getRequest (query : Values) : Request :=
  { Method := str "GET", Query := query, ParseForm := .ok query }

/-- `POST /hello_world_form` with a body that is not valid form encoding. -/
def malformedPost : Request :=
  { Method := str "POST"
    Query := []
    ParseForm := .error (str "invalid URL escape \"%zz\"") }

/-- `OPTIONS /hello_world`. -/
def optionsRequest : Request :=
  { Method := str "OPTIONS", Query := [], ParseForm := .ok [] }

/-- `POST /hello_world_form` with form values `form`. -/
def postRequest (form : Values) : Request :=
  { Method := str "POST", Query := [], ParseForm := .ok form }

/-- An upstream answer `404 Not Found`. -/
def notFound : Except GoString Response :=
  .ok { StatusCode := 404, Body := .ok (str "Not Found") }

/-- A handler that writes status 201 and a body and logs a line. -/
def sampleHandler : Handler := fun _ s =>
  { s with w := (s.w.WriteHeader 201).Write (str "ok"), log := s.log ++ [str "called"] }

/-! ## Notions used to state the JSON round trip -/

/-- What `appendStringBody` emits for one ASCII byte. -/
def escapeAscii (b : Nat) : GoString :=
  if htmlSafe b then [b]
  else if b = 92 ∨ b = 34 then [92, b]
  else if b = 8 then [92, 98]
  else if b = 12 then [92, 102]
  else if b = 10 then [92, 110]
  else if b = 13 then [92, 114]
  else if b = 9 then [92, 116]
  else [92, 117, 48, 48, hex (b >>> 4), hex (b &&& 0xF)]

/-- The value tree of the JSON text `marshalAbilityInfo a`. -/
def infoTree (a : AbilityInfo) : JSON :=
  .obj [(str "name", .str a.Name), (str "url", .str a.URL)]

/-- The value tree of the JSON text `marshalAbility a`. -/
def abilityTree (a : Ability) : JSON :=
  .obj [(str "ability", infoTree a.Ability), (str "is_hidden", .bool a.IsHidden),
    (str "slot", .num (formatInt a.Slot))]

/-- The value tree of the JSON text `marshalAbilities l`. -/
def abilitiesTree : Option (List Ability) → JSON
  | none => .null
  | some l => .arr (l.map abilityTree)

/-- The value tree of the JSON text `jsonMarshal p`. -/
def pokemonTree (p : Pokemon) : JSON :=
  .obj [(str "abilities", abilitiesTree p.Abilities), (str "height", .num (formatInt p.Height))]

/-- The range of Go `int` (64 bits). -/
def isInt64 (n : Int) : Bool := decide (-(2 ^ 63 : Int) ≤ n ∧ n ≤ (2 ^ 63 : Int) - 1)

/-- The integers of the record are Go `int` values. -/
def Pokemon.intsInRange (p : Pokemon) : Bool :=
  isInt64 p.Height && (p.Abilities.getD []).all (fun a => isInt64 a.Slot)

/-- Every ability name and URL of the record is valid UTF-8 (`utf8.Valid`). -/
def Pokemon.textValid (p : Pokemon) : Bool :=
  (p.Abilities.getD []).all (fun a => utf8Valid a.Ability.Name && utf8Valid a.Ability.URL)

/-- An upstream that answers every request with status 200 and the given body. -/
def serve (body : GoString) : GoString → Except GoString Response :=
  fun _ => .ok { StatusCode := 200, Body := .ok body }

/-- A record whose only ability has the one-byte name `0xFF`, which is not
valid UTF-8. -/
def invalidNameRecord : Pokemon :=
  { Abilities := some [{ Ability := { Name := [0xFF], URL := str "" }, IsHidden := false, Slot := 1 }]
    Height := 3 }

/-- The record `invalidNameRecord` with the name replaced by U+FFFD (bytes
`EF BF BD`). -/
def replacedNameRecord : Pokemon :=
  { Abilities := some [{ Ability := { Name := [0xEF, 0xBF, 0xBD], URL := str "" }
                         IsHidden := false, Slot := 1 }]
    Height := 3 }

/-- The record of the upstream fixture for `ditto`: two abilities and height 3. -/
def dittoRecord : Pokemon :=
  { Abilities := some [
      { Ability := { Name := str "limber", URL := str "https://pokeapi.co/api/v2/ability/7/" }
        IsHidden := false, Slot := 1 },
      { Ability := { Name := str "imposter", URL := str "https://pokeapi.co/api/v2/ability/150/" }
        IsHidden := true, Slot := 3 }]
    Height := 3 }

/-! ## Lemmas on headers and the response writer -/

theorem lookup_filter_ne (h : Header) (k k' : GoString) (hne : k' ≠ k) :
    (h.filter (fun e => e.1 ≠ k)).lookup k' = h.lookup k' := by
  induction h with
  | nil => rfl
  | cons e t ih =>
    obtain ⟨a, b⟩ := e
    by_cases hak : a = k
    · subst hak
      have hb : (k' == a) = false := by simpa using hne
      simpa [List.filter, List.lookup, hb] using ih
    · by_cases hk : k' = a
      · subst hk
        simp [List.filter, List.lookup, hak]
      · have hb : (k' == a) = false := by simpa using hk
        simpa [List.filter, List.lookup, hak, hb] using ih

theorem lookup_Set_self (h : Header) (k v : GoString) :
    (h.Set k v).lookup (CanonicalMIMEHeaderKey k) = some [v] := by
  simp [Header.Set, List.lookup]

theorem lookup_Set_ne (h : Header) (k v k' : GoString) (hne : k' ≠ CanonicalMIMEHeaderKey k) :
    (h.Set k v).lookup k' = h.lookup k' := by
  have hb : (k' == CanonicalMIMEHeaderKey k) = false := by simpa using hne
  simp only [Header.Set, List.lookup, hb]
  exact lookup_filter_ne h _ _ hne

theorem canon_origin : CanonicalMIMEHeaderKey (str "Access-Control-Allow-Origin")
    = str "Access-Control-Allow-Origin" := by decide

theorem canon_methods : CanonicalMIMEHeaderKey (str "Access-Control-Allow-Methods")
    = str "Access-Control-Allow-Methods" := by decide

theorem canon_headers : CanonicalMIMEHeaderKey (str "Access-Control-Allow-Headers")
    = str "Access-Control-Allow-Headers" := by decide

theorem origin_ne_methods : str "Access-Control-Allow-Origin" ≠ str "Access-Control-Allow-Methods" := by
  decide

theorem origin_ne_headers : str "Access-Control-Allow-Origin" ≠ str "Access-Control-Allow-Headers" := by
  decide

theorem methods_ne_headers : str "Access-Control-Allow-Methods" ≠ str "Access-Control-Allow-Headers" := by
  decide

/-- The header map after the three `Set` calls of `cors`. -/
theorem cors_header_lookup (h : Header) :
    let h3 := ((h.Set (str "Access-Control-Allow-Origin") (str "*")).Set
      (str "Access-Control-Allow-Methods") (str "GET, POST")).Set
      (str "Access-Control-Allow-Headers")
      (str "Content-Type, hx-target, hx-current-url, hx-request")
    h3.lookup (str "Access-Control-Allow-Origin") = some [str "*"] ∧
    h3.lookup (str "Access-Control-Allow-Methods") = some [str "GET, POST"] ∧
    h3.lookup (str "Access-Control-Allow-Headers")
      = some [str "Content-Type, hx-target, hx-current-url, hx-request"] ∧
    ∀ k, k ≠ str "Access-Control-Allow-Origin" → k ≠ str "Access-Control-Allow-Methods" →
      k ≠ str "Access-Control-Allow-Headers" → h3.lookup k = h.lookup k := by
  intro h3
  refine ⟨?_, ?_, ?_, ?_⟩
  · show (Header.Set _ _ _).lookup _ = _
    rw [lookup_Set_ne _ _ _ _ (by rw [canon_headers]; exact origin_ne_headers),
      lookup_Set_ne _ _ _ _ (by rw [canon_methods]; exact origin_ne_methods)]
    have := lookup_Set_self h (str "Access-Control-Allow-Origin") (str "*")
    rwa [canon_origin] at this
  · show (Header.Set _ _ _).lookup _ = _
    rw [lookup_Set_ne _ _ _ _ (by rw [canon_headers]; exact methods_ne_headers)]
    have := lookup_Set_self (h.Set (str "Access-Control-Allow-Origin") (str "*"))
      (str "Access-Control-Allow-Methods") (str "GET, POST")
    rwa [canon_methods] at this
  · have := lookup_Set_self ((h.Set (str "Access-Control-Allow-Origin") (str "*")).Set
      (str "Access-Control-Allow-Methods") (str "GET, POST"))
      (str "Access-Control-Allow-Headers")
      (str "Content-Type, hx-target, hx-current-url, hx-request")
    rwa [canon_headers] at this
  · intro k h1 h2 h3'
    show (Header.Set _ _ _).lookup _ = _
    rw [lookup_Set_ne _ _ _ _ (by rw [canon_headers]; exact h3'),
      lookup_Set_ne _ _ _ _ (by rw [canon_methods]; exact h2),
      lookup_Set_ne _ _ _ _ (by rw [canon_origin]; exact h1)]

theorem Header.Get_of_lookup (h : Header) (k v : GoString)
    (hc : CanonicalMIMEHeaderKey k = k) (hl : h.lookup k = some [v]) : h.Get k = v := by
  simp [Header.Get, hc, hl]

/-! ## Decimal integers -/

theorem digitsValue_append_single (ds : GoString) (d : Nat) :
    digitsValue (ds ++ [d]) = 10 * digitsValue ds + (d - 48) := by
  simp [digitsValue, List.foldl_append]

/-- The digit loop produces the decimal digits of `n`: a non-empty string of
decimal digits with value `n` and without a leading zero (except for `0`). -/
theorem natDigits_spec : ∀ (f n : Nat) (acc : GoString), n < f →
    ∃ ds : GoString, natDigits f n acc = ds ++ acc ∧ ds ≠ [] ∧
      (∀ d ∈ ds, 48 ≤ d ∧ d ≤ 57) ∧ digitsValue ds = n ∧
      (n ≠ 0 → ∃ d t, ds = d :: t ∧ 49 ≤ d) ∧ (n = 0 → ds = [48]) := by
  intro f
  induction f with
  | zero => intro n acc h; omega
  | succ f ih =>
    intro n acc h
    by_cases h0 : n / 10 = 0
    · refine ⟨[48 + n % 10], ?_, by simp, ?_, ?_, ?_, ?_⟩
      · simp [natDigits, h0]
      · intro d hd
        simp at hd
        omega
      · simp [digitsValue]; omega
      · intro hn
        exact ⟨48 + n % 10, [], rfl, by omega⟩
      · intro hn; subst hn; rfl
    · obtain ⟨ds, h1, h2, h3, h4, h5, -⟩ := ih (n / 10) ((48 + n % 10) :: acc) (by omega)
      refine ⟨ds ++ [48 + n % 10], ?_, by simp, ?_, ?_, ?_, ?_⟩
      · simp [natDigits, h0, h1]
      · intro d hd
        rcases List.mem_append.1 hd with hd | hd
        · exact h3 d hd
        · simp at hd; omega
      · rw [digitsValue_append_single, h4]; omega
      · intro _
        obtain ⟨d, t, hdt, hd⟩ := h5 h0
        exact ⟨d, t ++ [48 + n % 10], by simp [hdt], hd⟩
      · intro hn; subst hn; simp at h0

/-- The integer a decimal string denotes (no range check). -/
theorem formatInt_spec (n : Int) :
    ∃ ds : GoString, ds ≠ [] ∧ (∀ d ∈ ds, 48 ≤ d ∧ d ≤ 57) ∧ digitsValue ds = n.natAbs ∧
      (n ≠ 0 → ∃ d t, ds = d :: t ∧ 49 ≤ d) ∧ (n = 0 → ds = [48]) ∧
      formatInt n = (if n < 0 then 45 :: ds else ds) := by
  obtain ⟨ds, h1, h2, h3, h4, h5, h6⟩ := natDigits_spec (n.natAbs + 1) n.natAbs [] (by omega)
  refine ⟨ds, h2, h3, h4, ?_, ?_, ?_⟩
  · intro hn; exact h5 (Int.natAbs_ne_zero.2 hn)
  · intro hn; exact h6 (Int.natAbs_eq_zero.2 hn)
  · simp only [formatInt, h1, List.append_nil]

theorem all_isDigit_of (ds : GoString) (h : ∀ d ∈ ds, 48 ≤ d ∧ d ≤ 57) :
    ds.all isDigit = true := by
  rw [List.all_eq_true]
  intro d hd
  have := h d hd
  simp [isDigit, this.1, this.2]

/-- Parsing what `formatInt` printed gives the number back, for every `int`. -/
theorem parseInt_formatInt (n : Int) (hlo : -(2 ^ 63 : Int) ≤ n) (hhi : n ≤ (2 ^ 63 : Int) - 1) :
    parseInt (formatInt n) = some n := by
  obtain ⟨ds, h1, h2, h3, -, -, h6⟩ := formatInt_spec n
  have hall := all_isDigit_of ds h2
  by_cases hn : n < 0
  · rw [h6, if_pos hn]
    have hv : -(digitsValue ds : Int) = n := by rw [h3]; omega
    simp only [parseInt]
    simp [h1, hall, hv]
    omega
  · rw [h6, if_neg hn]
    obtain ⟨d, t, hdt⟩ := List.exists_cons_of_ne_nil h1
    have hd := h2 d (by simp [hdt])
    have hv : (digitsValue ds : Int) = n := by rw [h3]; omega
    have h43 : d ≠ 43 := by omega
    have h45 : d ≠ 45 := by omega
    rw [hdt] at hall hv
    simp only [hdt, parseInt]
    simp [h43, h45, hall, hv]
    omega

/-- The printed form determines the number. -/
theorem formatInt_injective (a b : Int) (h : formatInt a = formatInt b) : a = b := by
  obtain ⟨da, a1, a2, a3, -, -, a6⟩ := formatInt_spec a
  obtain ⟨db, b1, b2, b3, -, -, b6⟩ := formatInt_spec b
  rw [a6, b6] at h
  obtain ⟨x, xs, hx⟩ := List.exists_cons_of_ne_nil a1
  obtain ⟨y, ys, hy⟩ := List.exists_cons_of_ne_nil b1
  have hxd := a2 x (by simp [hx])
  have hyd := b2 y (by simp [hy])
  by_cases ha : a < 0 <;> by_cases hb : b < 0
  · simp only [ha, hb, if_true, List.cons.injEq, true_and] at h
    have : a.natAbs = b.natAbs := by rw [← a3, ← b3, h]
    omega
  · simp only [ha, hb, if_true, if_false, hy, List.cons.injEq] at h
    omega
  · simp only [ha, hb, if_true, if_false, hx, List.cons.injEq] at h
    omega
  · simp only [ha, hb, if_false] at h
    have : a.natAbs = b.natAbs := by rw [← a3, ← b3, h]
    omega

/-! ## The CORS wrapper -/

/-- Claim C4.  For every wrapped handler `h` and every `OPTIONS` request, on a
response writer to which nothing has been written, `cors` answers with status
204 and an empty body, the three CORS headers are among the headers sent with
the values `*`, `GET, POST` and
`Content-Type, hx-target, hx-current-url, hx-request`, nothing is logged, and
the outcome is the same for every handler: `h` is not invoked. -/
theorem cors_options (h : Handler) (r : Request) (s : World)
    (hm : r.Method = str "OPTIONS") (hs : s.w.status = none) (hb : s.w.body = []) :
    (cors h r s).w.status = some 204 ∧
    (cors h r s).w.body = [] ∧
    (cors h r s).w.sentHeader.Get (str "Access-Control-Allow-Origin") = str "*" ∧
    (cors h r s).w.sentHeader.Get (str "Access-Control-Allow-Methods") = str "GET, POST" ∧
    (cors h r s).w.sentHeader.Get (str "Access-Control-Allow-Headers")
      = str "Content-Type, hx-target, hx-current-url, hx-request" ∧
    (cors h r s).log = s.log ∧ (cors h r s).panicked = s.panicked ∧
    ∀ h' : Handler, cors h' r s = cors h r s := by
  obtain ⟨l1, l2, l3, -⟩ := cors_header_lookup s.w.header
  have hc : ∀ g : Handler, cors g r s =
      { s with w := { s.w with
          header := ((s.w.header.Set (str "Access-Control-Allow-Origin") (str "*")).Set
            (str "Access-Control-Allow-Methods") (str "GET, POST")).Set
            (str "Access-Control-Allow-Headers")
            (str "Content-Type, hx-target, hx-current-url, hx-request")
          status := some 204
          sentHeader := ((s.w.header.Set (str "Access-Control-Allow-Origin") (str "*")).Set
            (str "Access-Control-Allow-Methods") (str "GET, POST")).Set
            (str "Access-Control-Allow-Headers")
            (str "Content-Type, hx-target, hx-current-url, hx-request") } } := by
    intro g
    simp [cors, hm, World.setHeader, ResponseWriter.WriteHeader, hs]
  refine ⟨by rw [hc], by rw [hc]; exact hb, ?_, ?_, ?_, by rw [hc], by rw [hc], ?_⟩
  · rw [hc]; exact Header.Get_of_lookup _ _ _ canon_origin l1
  · rw [hc]; exact Header.Get_of_lookup _ _ _ canon_methods l2
  · rw [hc]; exact Header.Get_of_lookup _ _ _ canon_headers l3
  · intro h'; rw [hc h', hc h]

/-- Claim C4 at `OPTIONS /hello_world` with a handler that would write 201. -/
theorem cors_options_witness :
    (cors sampleHandler optionsRequest World.fresh).w.status = some 204 ∧
    (cors sampleHandler optionsRequest World.fresh).w.body = [] ∧
    (cors sampleHandler optionsRequest World.fresh).log = [] :=
  have h := cors_options sampleHandler optionsRequest World.fresh rfl rfl rfl
  ⟨h.1, h.2.1, h.2.2.2.2.2.1⟩

/-- Claim C9.  For every wrapped handler `h` and every request whose method is
not `OPTIONS`, `cors h` is `h` run once, on the same request, in the state `s3`
obtained by the three `Header().Set` calls.  In `s3` the status, the headers
already sent, the body, the log and the panic state are those of the initial
state (the wrapper writes no status and no body), the three CORS keys hold the
fixed values, and every other key of the header map is untouched.  Nothing runs
after `h`, so the response is exactly what `h` produces from `s3`. -/
theorem cors_delegates (h : Handler) (r : Request) (s : World)
    (hm : r.Method ≠ str "OPTIONS") :
    let s3 := ((s.setHeader (str "Access-Control-Allow-Origin") (str "*")).setHeader
      (str "Access-Control-Allow-Methods") (str "GET, POST")).setHeader
      (str "Access-Control-Allow-Headers")
      (str "Content-Type, hx-target, hx-current-url, hx-request")
    cors h r s = h r s3 ∧
    s3.w.status = s.w.status ∧ s3.w.sentHeader = s.w.sentHeader ∧ s3.w.body = s.w.body ∧
    s3.log = s.log ∧ s3.panicked = s.panicked ∧
    s3.w.header.Get (str "Access-Control-Allow-Origin") = str "*" ∧
    s3.w.header.Get (str "Access-Control-Allow-Methods") = str "GET, POST" ∧
    s3.w.header.Get (str "Access-Control-Allow-Headers")
      = str "Content-Type, hx-target, hx-current-url, hx-request" ∧
    ∀ k, k ≠ str "Access-Control-Allow-Origin" → k ≠ str "Access-Control-Allow-Methods" →
      k ≠ str "Access-Control-Allow-Headers" → s3.w.header.Values k = s.w.header.Values k := by
  intro s3
  obtain ⟨l1, l2, l3, l4⟩ := cors_header_lookup s.w.header
  refine ⟨?_, rfl, rfl, rfl, rfl, rfl, ?_, ?_, ?_, ?_⟩
  · simp [cors, hm, s3]
  · exact Header.Get_of_lookup _ _ _ canon_origin l1
  · exact Header.Get_of_lookup _ _ _ canon_methods l2
  · exact Header.Get_of_lookup _ _ _ canon_headers l3
  · intro k h1 h2 h3
    show Header.Values _ k = Header.Values _ k
    unfold Header.Values
    exact congrArg (fun o => Option.getD o []) (l4 k h1 h2 h3)

/-- Claim C9 at `GET /hello_world?name=Alice` with a handler that writes 201,
a body and a log line: the response is the handler's. -/
theorem cors_delegates_witness :
    (cors sampleHandler aliceRequest World.fresh).w.status = some 201 ∧
    (cors sampleHandler aliceRequest World.fresh).w.body = str "ok" ∧
    (cors sampleHandler aliceRequest World.fresh).log = [str "called"] := by
  have h := (cors_delegates sampleHandler aliceRequest World.fresh (by decide)).1
  rw [h]
  decide

/-! ## The form handler -/

/-- Claim C10.  When the form parses, `helloWorldForm` hands to
`HelloWorldGreeting` exactly `r.FormValue("name")`: the first value of the form
field `name`, the empty string when the field is absent.  The name is
`"World"` only if that is the first value the client sent. -/
theorem helloWorldForm_name (env : Env) (r : Request) (s : World) (form : Values)
    (hform : r.ParseForm = .ok form) :
    helloWorldForm env r s =
      (match (env.HelloWorldGreeting (form.Get (str "name")) s.w).2 with
        | some _ =>
          { s with w := (env.HelloWorldGreeting (form.Get (str "name")) s.w).1.WriteHeader 500 }
        | none => { s with w := (env.HelloWorldGreeting (form.Get (str "name")) s.w).1 }) ∧
    (form.lookup (str "name") = none → form.Get (str "name") = str "") ∧
    (∀ v vs, form.lookup (str "name") = some (v :: vs) → form.Get (str "name") = v) ∧
    (form.Get (str "name") = str "World" →
      ∃ vs, form.lookup (str "name") = some (str "World" :: vs)) := by
  refine ⟨?_, ?_, ?_, ?_⟩
  · simp [helloWorldForm, hform]
  · intro h; simp [Values.Get, h]; rfl
  · intro v vs h; simp [Values.Get, h]
  · intro h
    unfold Values.Get at h
    cases hl : form.lookup (str "name") with
    | none => rw [hl] at h; exact absurd h (by decide)
    | some l =>
      cases l with
      | nil => rw [hl] at h; exact absurd h (by decide)
      | cons v vs =>
        rw [hl] at h
        simp only at h
        exact ⟨vs, by rw [h]⟩

/-- Claim C10 at a form without a `name` field: the component is rendered with
the empty name, not with `"World"`. -/
theorem helloWorldForm_name_witness :
    (helloWorldForm (sampleEnv notFound greetingTemplate) (postRequest []) World.fresh).w.body
      = str "<p>Hello, !</p>" := by
  rw [(helloWorldForm_name (sampleEnv notFound greetingTemplate) (postRequest []) World.fresh []
    rfl).1]
  decide

/-! ## The upstream client -/

theorem received_head (x : GoString) :
    (str "received non-200 response: " ++ x).head? = some 114 := by
  have h : str "received non-200 response: " = 114 :: (str "eceived non-200 response: ") := by
    decide
  rw [h]; rfl

theorem failed_head (x : GoString) :
    (str "failed to fetch Pokémon data: " ++ x).head? = some 102 ∧
    (str "failed to read response body: " ++ x).head? = some 102 ∧
    (str "failed to unmarshal Pokémon data: " ++ x).head? = some 102 := by
  have h1 : str "failed to fetch Pokémon data: " = 102 :: (str "ailed to fetch Pokémon data: ") := by
    decide
  have h2 : str "failed to read response body: " = 102 :: (str "ailed to read response body: ") := by
    decide
  have h3 : str "failed to unmarshal Pokémon data: "
      = 102 :: (str "ailed to unmarshal Pokémon data: ") := by
    decide
  rw [h1, h2, h3]
  exact ⟨rfl, rfl, rfl⟩

/-- Whenever `getPokemonData` returns an error, the record it returns is the
zero value. -/
theorem getPokemonData_error_zero (httpGet : GoString → Except GoString Response)
    (pokemonName : GoString) (h : (getPokemonData httpGet pokemonName).2 ≠ none) :
    (getPokemonData httpGet pokemonName).1 = Pokemon.zero := by
  cases hg : httpGet (str "https://pokeapi.co/api/v2/pokemon/" ++ pokemonName) with
  | error e => simp [getPokemonData, hg]
  | ok resp =>
    by_cases hc : resp.StatusCode = 200
    · cases hb : resp.Body with
      | error e => simp [getPokemonData, hg, hc, hb]
      | ok body =>
        cases hu : jsonUnmarshal body with
        | error e => simp [getPokemonData, hg, hc, hb, hu]
        | ok p => exact absurd (by simp [getPokemonData, hg, hc, hb, hu]) h
    · simp [getPokemonData, hg, hc]

/-- The four ways the fetch fails: transport failure, a status other than 200,
failure to read the body, failure to decode it. -/
theorem getPokemonData_error_iff (httpGet : GoString → Except GoString Response)
    (pokemonName : GoString) :
    (getPokemonData httpGet pokemonName).2 ≠ none ↔
      ((∃ e, httpGet (str "https://pokeapi.co/api/v2/pokemon/" ++ pokemonName) = .error e) ∨
       (∃ resp, httpGet (str "https://pokeapi.co/api/v2/pokemon/" ++ pokemonName) = .ok resp ∧
          (resp.StatusCode ≠ 200 ∨ (∃ e, resp.Body = .error e) ∨
            (∃ body e, resp.Body = .ok body ∧ jsonUnmarshal body = .error e)))) := by
  cases hg : httpGet (str "https://pokeapi.co/api/v2/pokemon/" ++ pokemonName) with
  | error e => simp [getPokemonData, hg]
  | ok resp =>
    by_cases hc : resp.StatusCode = 200
    · cases hb : resp.Body with
      | error e => simp [getPokemonData, hg, hc, hb]
      | ok body =>
        cases hu : jsonUnmarshal body with
        | error e => simp [getPokemonData, hg, hc, hb, hu]
        | ok p => simp [getPokemonData, hg, hc, hb, hu]
    · simp [getPokemonData, hg, hc]

/-- Claim C5.  If the upstream answers with a status code `c` other than 200,
`getPokemonData` returns the zero record and the error
`received non-200 response: c`.  The message determines `c`, and the result
does not depend on the body (which is neither read nor decoded).  The error is
distinct from those of the other paths: whatever the upstream does, if
`getPokemonData` returns the error `received non-200 response: c`, then the
upstream answered, with status `c`, and `c` is not 200; so a transport
failure, a failure to read the body and a failure to decode it never return
this error, whatever the text of the underlying error. -/
theorem getPokemonData_non200 (httpGet : GoString → Except GoString Response)
    (pokemonName : GoString) (resp : Response)
    (hget : httpGet (str "https://pokeapi.co/api/v2/pokemon/" ++ pokemonName) = .ok resp)
    (hcode : resp.StatusCode ≠ 200) :
    getPokemonData httpGet pokemonName =
      (Pokemon.zero, some (str "received non-200 response: " ++ formatInt resp.StatusCode)) ∧
    Pokemon.zero.Abilities = none ∧ Pokemon.zero.Height = 0 ∧
    (∀ c : Int, str "received non-200 response: " ++ formatInt c
        = str "received non-200 response: " ++ formatInt resp.StatusCode → c = resp.StatusCode) ∧
    (∀ e, str "received non-200 response: " ++ formatInt resp.StatusCode
        ≠ str "failed to fetch Pokémon data: " ++ e) ∧
    (∀ e, str "received non-200 response: " ++ formatInt resp.StatusCode
        ≠ str "failed to read response body: " ++ e) ∧
    (∀ e, str "received non-200 response: " ++ formatInt resp.StatusCode
        ≠ str "failed to unmarshal Pokémon data: " ++ e) ∧
    (∀ (httpGet' : GoString → Except GoString Response) (body : Except GoString GoString),
      httpGet' (str "https://pokeapi.co/api/v2/pokemon/" ++ pokemonName)
        = .ok { resp with Body := body } →
      getPokemonData httpGet' pokemonName = getPokemonData httpGet pokemonName) ∧
    (∀ (g : GoString → Except GoString Response) (n : GoString) (c : Int),
      (getPokemonData g n).2 = some (str "received non-200 response: " ++ formatInt c) →
      ∃ r, g (str "https://pokeapi.co/api/v2/pokemon/" ++ n) = .ok r ∧
        r.StatusCode = c ∧ r.StatusCode ≠ 200) ∧
    (∀ (g : GoString → Except GoString Response) (n : GoString) (c : Int),
      ((∃ e, g (str "https://pokeapi.co/api/v2/pokemon/" ++ n) = .error e) ∨
       (∃ r, g (str "https://pokeapi.co/api/v2/pokemon/" ++ n) = .ok r ∧ r.StatusCode = 200)) →
      (getPokemonData g n).2 ≠ some (str "received non-200 response: " ++ formatInt c)) := by
  have key : ∀ (g : GoString → Except GoString Response) (body : Except GoString GoString),
      g (str "https://pokeapi.co/api/v2/pokemon/" ++ pokemonName) = .ok { resp with Body := body } →
      getPokemonData g pokemonName =
        (Pokemon.zero, some (str "received non-200 response: " ++ formatInt resp.StatusCode)) := by
    intro g body hg
    simp [getPokemonData, hg, hcode]
  have conv : ∀ (g : GoString → Except GoString Response) (n : GoString) (c : Int),
      (getPokemonData g n).2 = some (str "received non-200 response: " ++ formatInt c) →
      ∃ r, g (str "https://pokeapi.co/api/v2/pokemon/" ++ n) = .ok r ∧
        r.StatusCode = c ∧ r.StatusCode ≠ 200 := by
    intro g n c h
    have clash : ∀ x y : GoString, (x.head? = some 102) →
        some x = some (str "received non-200 response: " ++ y) → False := by
      intro x y hx hxy
      have h1 := congrArg List.head? (Option.some.inj hxy)
      rw [received_head, hx] at h1
      exact absurd h1 (by decide)
    cases hg : g (str "https://pokeapi.co/api/v2/pokemon/" ++ n) with
    | error e =>
      simp only [getPokemonData, hg] at h
      exact (clash _ _ (failed_head e).1 h).elim
    | ok r =>
      by_cases hc : r.StatusCode = 200
      · cases hb : r.Body with
        | error e =>
          simp only [getPokemonData, hg, hc, hb, ne_eq, not_true_eq_false, if_false] at h
          exact (clash _ _ (failed_head e).2.1 h).elim
        | ok body =>
          cases hu : jsonUnmarshal body with
          | error e =>
            simp only [getPokemonData, hg, hc, hb, hu, ne_eq, not_true_eq_false, if_false] at h
            exact (clash _ _ (failed_head e.Error).2.2 h).elim
          | ok q =>
            simp only [getPokemonData, hg, hc, hb, hu, ne_eq, not_true_eq_false, if_false] at h
            exact absurd h (by simp)
      · simp only [getPokemonData, hg, ne_eq, hc, not_false_eq_true, if_true] at h
        have h1 := List.append_cancel_left (Option.some.inj h)
        exact ⟨r, rfl, formatInt_injective _ _ h1, hc⟩
  refine ⟨key httpGet resp.Body hget, rfl, rfl, ?_, ?_, ?_, ?_, ?_, conv, ?_⟩
  · intro c h
    exact formatInt_injective _ _ (List.append_cancel_left h)
  · intro e h
    have := congrArg List.head? h
    rw [received_head, (failed_head e).1] at this
    exact absurd this (by decide)
  · intro e h
    have := congrArg List.head? h
    rw [received_head, (failed_head e).2.1] at this
    exact absurd this (by decide)
  · intro e h
    have := congrArg List.head? h
    rw [received_head, (failed_head e).2.2] at this
    exact absurd this (by decide)
  · intro g body hg
    rw [key g body hg, key httpGet resp.Body hget]
  · intro g n c hpath h
    obtain ⟨r, hr, -, hne⟩ := conv g n c h
    rcases hpath with ⟨e, he⟩ | ⟨r', hr', h200⟩
    · rw [he] at hr; exact absurd hr (by simp)
    · rw [hr'] at hr
      have : r' = r := Except.ok.inj hr
      rw [this] at h200
      exact hne h200

/-- Claim C5 at an upstream answer 404: the error reads
`received non-200 response: 404`; a transport failure whose own text is
`received non-200 response: 404` is still reported as a different error. -/
theorem getPokemonData_non200_witness :
    getPokemonData (fun _ => notFound) (str "ditto")
      = (Pokemon.zero, some (str "received non-200 response: 404")) ∧
    (getPokemonData (fun _ => .error (str "received non-200 response: 404")) (str "ditto")).2
      ≠ some (str "received non-200 response: " ++ formatInt 404) :=
  have h := getPokemonData_non200 (fun _ => notFound) (str "ditto")
    { StatusCode := 404, Body := .ok (str "Not Found") } rfl (by decide)
  ⟨h.1, h.2.2.2.2.2.2.2.2.2 (fun _ => .error (str "received non-200 response: 404"))
    (str "ditto") 404 (Or.inl ⟨_, rfl⟩)⟩

/-! ## The greeting handler -/

/-- What `helloWorld` does, for a template that parses: one log entry with the
indented JSON of the fetched record, then the template is executed on `Name`
`"Linh"`, the fetched record and `"ditto"`; the request does not enter. -/
theorem helloWorld_eq (env : Env) (r : Request) (s : World) (tmpl : Template)
    (hparse : env.parseFiles (str "partials/helloworld.html") = .ok tmpl) :
    helloWorld env r s =
      (match tmpl { Name := str "Linh"
                    PokemonData := (getPokemonData env.httpGet (str "ditto")).1
                    PokemonName := str "ditto" } with
        | .error errs =>
          ise errs { s with log := s.log ++ [str "Pokémon data: " ++
            (jsonMarshalIndent (getPokemonData env.httpGet (str "ditto")).1).1] }
        | .ok buff =>
          { s with
            log := s.log ++ [str "Pokémon data: " ++
              (jsonMarshalIndent (getPokemonData env.httpGet (str "ditto")).1).1]
            w := (s.w.WriteHeader 200).Write buff }) := by
  simp only [helloWorld, hparse, jsonMarshalIndent]

theorem write_status (w : ResponseWriter) (data : GoString) :
    (w.Write data).status = some (w.status.getD 200) := by
  obtain ⟨hd, st, sh, bd⟩ := w
  cases st <;> simp only [ResponseWriter.Write, ResponseWriter.WriteHeader] <;>
    split <;> try split
  all_goals rfl

theorem write_body (w : ResponseWriter) (data : GoString)
    (h : bodyAllowedForStatus (w.status.getD 200) = true) :
    (w.Write data).body = w.body ++ data := by
  obtain ⟨hd, st, sh, bd⟩ := w
  cases st with
  | none =>
    simp only [ResponseWriter.Write, ResponseWriter.WriteHeader]
    split
    · rename_i hdat; simp [hdat]
    · simp [bodyAllowedForStatus]
  | some c =>
    simp only [ResponseWriter.Write, ResponseWriter.WriteHeader]
    split
    · rename_i hdat; simp [hdat]
    · simp only [Option.getD] at h ⊢

theorem write_fresh_status (w : ResponseWriter) (data : GoString) (h : w.status = none) :
    (w.Write data).status = some 200 := by
  rw [write_status, h]; rfl

theorem write_fresh_body (w : ResponseWriter) (data : GoString) (h : w.status = none) :
    (w.Write data).body = w.body ++ data := by
  apply write_body; rw [h]; rfl

/-- The response of `ise` on a writer whose header has not been written: the
body write fixes status 200, the later `WriteHeader(500)` is superfluous. -/
theorem ise_fresh (err : GoString) (s : World) (h : s.w.status = none) :
    (ise err s).w.status = some 200 ∧ (ise err s).w.body = s.w.body ++ (str "error: " ++ err) := by
  have h1 := write_fresh_status s.w (str "error: " ++ err) h
  have h2 := write_fresh_body s.w (str "error: " ++ err) h
  unfold ise
  simp only [ResponseWriter.WriteHeader, h1]
  exact ⟨trivial, h2⟩

/-- Claim C6.  If the template parses and the upstream fetch fails (for
whatever reason: by `getPokemonData_error_iff` a transport failure, a status
other than 200, an unreadable body or an undecodable body), `helloWorld`
still executes the template, on data whose `PokemonData` is the zero record
(nil abilities, height 0); the resulting state is the same for every
environment in which the fetch fails and the template is the same; and
whenever execution yields `buff`, on a writer whose header has not been
written, the status is 200 and `buff` is appended to the body. -/
theorem helloWorld_fetch_failure (env : Env) (r : Request) (s : World) (tmpl : Template)
    (hparse : env.parseFiles (str "partials/helloworld.html") = .ok tmpl)
    (hfail : (getPokemonData env.httpGet (str "ditto")).2 ≠ none) :
    helloWorld env r s =
      (match tmpl { Name := str "Linh", PokemonData := Pokemon.zero, PokemonName := str "ditto" } with
        | .error errs =>
          ise errs { s with log := s.log ++ [str "Pokémon data: " ++
            (jsonMarshalIndent Pokemon.zero).1] }
        | .ok buff =>
          { s with
            log := s.log ++ [str "Pokémon data: " ++ (jsonMarshalIndent Pokemon.zero).1]
            w := (s.w.WriteHeader 200).Write buff }) ∧
    Pokemon.zero.Abilities = none ∧ Pokemon.zero.Height = 0 ∧
    (∀ env' : Env, env'.parseFiles (str "partials/helloworld.html") = .ok tmpl →
      (getPokemonData env'.httpGet (str "ditto")).2 ≠ none →
      helloWorld env' r s = helloWorld env r s) ∧
    (∀ buff, tmpl { Name := str "Linh", PokemonData := Pokemon.zero, PokemonName := str "ditto" }
        = .ok buff → s.w.status = none →
      (helloWorld env r s).w.status = some 200 ∧
      (helloWorld env r s).w.body = s.w.body ++ buff) := by
  have key : ∀ e : Env, e.parseFiles (str "partials/helloworld.html") = .ok tmpl →
      (getPokemonData e.httpGet (str "ditto")).2 ≠ none →
      helloWorld e r s =
        (match tmpl { Name := str "Linh", PokemonData := Pokemon.zero,
                      PokemonName := str "ditto" } with
          | .error errs =>
            ise errs { s with log := s.log ++ [str "Pokémon data: " ++
              (jsonMarshalIndent Pokemon.zero).1] }
          | .ok buff =>
            { s with
              log := s.log ++ [str "Pokémon data: " ++ (jsonMarshalIndent Pokemon.zero).1]
              w := (s.w.WriteHeader 200).Write buff }) := by
    intro e hp hf
    rw [helloWorld_eq e r s tmpl hp, getPokemonData_error_zero _ _ hf]
  refine ⟨key env hparse hfail, rfl, rfl, ?_, ?_⟩
  · intro env' hp hf
    rw [key env' hp hf, key env hparse hfail]
  · intro buff hb hs
    rw [key env hparse hfail, hb]
    have hs' : (s.w.WriteHeader 200).status = some 200 := by
      simp [ResponseWriter.WriteHeader, hs]
    have hbd : (s.w.WriteHeader 200).body = s.w.body := by
      simp [ResponseWriter.WriteHeader, hs]
    constructor
    · show ((s.w.WriteHeader 200).Write buff).status = some 200
      rw [write_status, hs']; rfl
    · show ((s.w.WriteHeader 200).Write buff).body = s.w.body ++ buff
      rw [write_body _ _ (by rw [hs']; rfl), hbd]

/-- Claim C6 at an upstream answer 404: the greeting template is rendered with
status 200. -/
theorem helloWorld_fetch_failure_witness :
    (helloWorld (sampleEnv notFound greetingTemplate) aliceRequest World.fresh).w.status
      = some 200 ∧
    (helloWorld (sampleEnv notFound greetingTemplate) aliceRequest World.fresh).w.body
      = str "<p>Hello, Linh!</p>" :=
  (helloWorld_fetch_failure (sampleEnv notFound greetingTemplate) aliceRequest World.fresh
    greetingTemplate rfl (by decide)).2.2.2.2 (str "<p>Hello, Linh!</p>") rfl rfl

/-- Claim C1, evaluated.  `GET /hello_world?name=Alice` with a template that
renders `Name`: the query value is `Alice`, the body is the greeting for
`Linh` and does not contain `Alice`, whatever the upstream answers.  More
generally the resulting state does not depend on the request at all. -/
theorem helloWorld_ignores_query_value :
    aliceRequest.Query.Get (str "name") = str "Alice" ∧
    (∀ upstream, (helloWorld (sampleEnv upstream greetingTemplate) aliceRequest World.fresh).w.body
      = str "<p>Hello, Linh!</p>") ∧
    hasInfix (str "Alice") (str "<p>Hello, Linh!</p>") = false ∧
    (∀ (env : Env) (r r' : Request) (s : World), helloWorld env r s = helloWorld env r' s) := by
  refine ⟨by decide, ?_, by decide, ?_⟩
  · intro upstream
    rw [helloWorld_eq _ _ _ greetingTemplate rfl]
    show ((ResponseWriter.fresh.WriteHeader 200).Write
      (str "<p>Hello, " ++ str "Linh" ++ str "!</p>")).body = _
    decide
  · intro env r r' s
    rfl

/-- Claim C2, evaluated.  `GET /hello_world` with `name` absent, empty or
`null` and a template that renders `Name`: the body is the greeting for
`Linh`, not the one for `World`, whatever the upstream answers. -/
theorem helloWorld_default_name_not_world :
    (∀ upstream,
      (helloWorld (sampleEnv upstream greetingTemplate) (getRequest []) World.fresh).w.body
        = str "<p>Hello, Linh!</p>") ∧
    (∀ upstream,
      (helloWorld (sampleEnv upstream greetingTemplate) (getRequest [(str "name", [str ""])])
        World.fresh).w.body = str "<p>Hello, Linh!</p>") ∧
    (∀ upstream,
      (helloWorld (sampleEnv upstream greetingTemplate) (getRequest [(str "name", [str "null"])])
        World.fresh).w.body = str "<p>Hello, Linh!</p>") ∧
    (getRequest []).Query.Get (str "name") = str "" ∧
    str "<p>Hello, Linh!</p>" ≠ str "<p>Hello, World!</p>" ∧
    hasInfix (str "World") (str "<p>Hello, Linh!</p>") = false := by
  have key : ∀ upstream query,
      (helloWorld (sampleEnv upstream greetingTemplate) (getRequest query) World.fresh).w.body
        = str "<p>Hello, Linh!</p>" := by
    intro upstream query
    rw [helloWorld_eq _ _ _ greetingTemplate rfl]
    show ((ResponseWriter.fresh.WriteHeader 200).Write
      (str "<p>Hello, " ++ str "Linh" ++ str "!</p>")).body = _
    decide
  exact ⟨fun u => key u _, fun u => key u _, fun u => key u _, by decide, by decide, by decide⟩

/-- Claim C3, evaluated.  A `POST /hello_world_form` whose form does not parse,
and a `GET /hello_world` whose template fails to execute, both directly and
behind `cors`: the body carries the error text, and the status is 200, because
`ise` writes the body before it calls `WriteHeader(500)`.  The same holds for
every error text on every response writer whose header has not been written. -/
theorem ise_status_is_200 :
    (helloWorldForm (sampleEnv notFound greetingTemplate) malformedPost World.fresh).w.status
      = some 200 ∧
    (helloWorldForm (sampleEnv notFound greetingTemplate) malformedPost World.fresh).w.body
      = str "error: invalid URL escape \"%zz\"" ∧
    (cors (helloWorldForm (sampleEnv notFound greetingTemplate)) malformedPost
      World.fresh).w.status = some 200 ∧
    (helloWorld (sampleEnv notFound failingTemplate) aliceRequest World.fresh).w.status
      = some 200 ∧
    (helloWorld (sampleEnv notFound failingTemplate) aliceRequest World.fresh).w.body
      = str "error: template: helloworld.html: can't evaluate field" ∧
    (cors (helloWorld (sampleEnv notFound failingTemplate)) aliceRequest
      World.fresh).w.status = some 200 ∧
    (∀ (err : GoString) (header : Header) (log : List GoString),
      (ise err { w := { header := header, status := none, sentHeader := [], body := [] }
                 log := log, panicked := none }).w.status = some 200 ∧
      (ise err { w := { header := header, status := none, sentHeader := [], body := [] }
                 log := log, panicked := none }).w.body = str "error: " ++ err) := by
  refine ⟨by decide, by decide, by decide, by decide, by decide, by decide, ?_⟩
  intro err header log
  exact ise_fresh err _ rfl

/-- Claim C7, evaluated.  The upstream answers 404, so `getPokemonData` returns
the error `received non-200 response: 404`; the log of `helloWorld` then holds
exactly one entry, the indented JSON of the zero record, and the error text
occurs in no entry.  In general the log entry is computed from the returned
record alone. -/
theorem helloWorld_drops_fetch_error :
    (getPokemonData (sampleEnv notFound greetingTemplate).httpGet (str "ditto")).2
      = some (str "received non-200 response: 404") ∧
    (helloWorld (sampleEnv notFound greetingTemplate) aliceRequest World.fresh).log
      = [str "Pokémon data: \x7b\n  \"abilities\": null,\n  \"height\": 0\n\x7d"] ∧
    (helloWorld (sampleEnv notFound greetingTemplate) aliceRequest World.fresh).log.all
      (fun entry => !hasInfix (str "received non-200 response: 404") entry &&
        !hasInfix (str "non-200") entry) = true ∧
    (∀ (env : Env) (r : Request) (s : World),
      (helloWorld env r s).log = s.log ++ [str "Pokémon data: " ++
        (jsonMarshalIndent (getPokemonData env.httpGet (str "ditto")).1).1]) := by
  refine ⟨by decide, by decide, by decide, ?_⟩
  intro env r s
  simp only [helloWorld, jsonMarshalIndent]
  cases env.parseFiles (str "partials/helloworld.html") with
  | error e => rfl
  | ok tmpl =>
    simp only
    cases tmpl { Name := str "Linh"
                 PokemonData := (getPokemonData env.httpGet (str "ditto")).1
                 PokemonName := str "ditto" } <;> rfl

/-! ## UTF-8: decoding a valid sequence and encoding the rune again -/

theorem lor_eq_add (k a b : Nat) (h : b < 2 ^ k) : (2 ^ k * a) ||| b = 2 ^ k * a + b :=
  (Nat.mul_add_lt_is_or h a).symm

theorem and63 (x : Nat) : x &&& 0x3F = x % 64 := Nat.and_pow_two_sub_one_eq_mod x 6
theorem and31 (x : Nat) : x &&& 0x1F = x % 32 := Nat.and_pow_two_sub_one_eq_mod x 5
theorem and15 (x : Nat) : x &&& 0x0F = x % 16 := Nat.and_pow_two_sub_one_eq_mod x 4
theorem and7 (x : Nat) : x &&& 0x07 = x % 8 := Nat.and_pow_two_sub_one_eq_mod x 3

theorem or80 (x : Nat) (h : x < 64) : 0x80 ||| x = 128 + x := by
  have := lor_eq_add 7 1 x (by omega)
  simpa using this

theorem orC0 (x : Nat) (h : x < 32) : 0xC0 ||| x = 192 + x := by
  have := lor_eq_add 6 3 x (by omega)
  simpa using this

theorem orE0 (x : Nat) (h : x < 16) : 0xE0 ||| x = 224 + x := by
  have := lor_eq_add 5 7 x (by omega)
  simpa using this

theorem orF0 (x : Nat) (h : x < 8) : 0xF0 ||| x = 240 + x := by
  have := lor_eq_add 4 15 x (by omega)
  simpa using this

/-- The two-byte encoding in arithmetic form. -/
theorem appendRune_two (r : Nat) (h1 : 0x80 ≤ r) (h2 : r ≤ 0x7FF) :
    appendRune r = [192 + r / 64, 128 + r % 64] := by
  have e1 : ¬ r ≤ 0x7F := by omega
  simp only [appendRune, if_neg e1, if_pos h2, Nat.shiftRight_eq_div_pow, and63]
  rw [orC0 _ (by omega), or80 _ (by omega)]

/-- The three-byte encoding in arithmetic form. -/
theorem appendRune_three (r : Nat) (h1 : 0x800 ≤ r) (h2 : r ≤ 0xFFFF)
    (hs : ¬ (0xD800 ≤ r ∧ r ≤ 0xDFFF)) :
    appendRune r = [224 + r / 4096, 128 + (r / 64) % 64, 128 + r % 64] := by
  have e1 : ¬ r ≤ 0x7F := by omega
  have e2 : ¬ r ≤ 0x7FF := by omega
  have e3 : ¬ (r > 0x10FFFF ∨ (0xD800 ≤ r ∧ r ≤ 0xDFFF)) := by omega
  simp only [appendRune, if_neg e1, if_neg e2, if_neg e3, if_pos h2,
    Nat.shiftRight_eq_div_pow, and63]
  rw [orE0 _ (by omega), or80 _ (by omega), or80 _ (by omega)]

/-- The four-byte encoding in arithmetic form. -/
theorem appendRune_four (r : Nat) (h1 : 0x10000 ≤ r) (h2 : r ≤ 0x10FFFF) :
    appendRune r =
      [240 + r / 262144, 128 + (r / 4096) % 64, 128 + (r / 64) % 64, 128 + r % 64] := by
  have e1 : ¬ r ≤ 0x7F := by omega
  have e2 : ¬ r ≤ 0x7FF := by omega
  have e3 : ¬ (r > 0x10FFFF ∨ (0xD800 ≤ r ∧ r ≤ 0xDFFF)) := by omega
  have e4 : ¬ r ≤ 0xFFFF := by omega
  simp only [appendRune, if_neg e1, if_neg e2, if_neg e3, if_neg e4,
    Nat.shiftRight_eq_div_pow, and63]
  rw [orF0 _ (by omega), or80 _ (by omega), or80 _ (by omega), or80 _ (by omega)]

theorem rune_two (b b1 : Nat) :
    ((b &&& 0x1F) <<< 6) ||| (b1 &&& 0x3F) = b % 32 * 64 + b1 % 64 := by
  rw [and31, and63, Nat.shiftLeft_eq, Nat.mul_comm, lor_eq_add 6 _ _ (by omega)]

theorem rune_three (b b1 b2 : Nat) :
    ((b &&& 0x0F) <<< 12) ||| ((b1 &&& 0x3F) <<< 6) ||| (b2 &&& 0x3F)
      = b % 16 * 4096 + b1 % 64 * 64 + b2 % 64 := by
  rw [and15, and63, and63, Nat.shiftLeft_eq, Nat.shiftLeft_eq]
  have h1 : b % 16 * 2 ^ 12 ||| b1 % 64 * 2 ^ 6 = 2 ^ 6 * (b % 16 * 64 + b1 % 64) := by
    rw [Nat.mul_comm (b % 16), lor_eq_add 12 _ _ (by omega)]
    omega
  rw [h1, lor_eq_add 6 _ _ (by omega)]
  omega

theorem rune_four (b b1 b2 b3 : Nat) :
    ((b &&& 0x07) <<< 18) ||| ((b1 &&& 0x3F) <<< 12) ||| ((b2 &&& 0x3F) <<< 6) ||| (b3 &&& 0x3F)
      = b % 8 * 262144 + b1 % 64 * 4096 + b2 % 64 * 64 + b3 % 64 := by
  rw [and7, and63, and63, and63, Nat.shiftLeft_eq, Nat.shiftLeft_eq, Nat.shiftLeft_eq]
  have h1 : b % 8 * 2 ^ 18 ||| b1 % 64 * 2 ^ 12 = 2 ^ 12 * (b % 8 * 64 + b1 % 64) := by
    rw [Nat.mul_comm (b % 8), lor_eq_add 18 _ _ (by omega)]
    omega
  have h2 : 2 ^ 12 * (b % 8 * 64 + b1 % 64) ||| b2 % 64 * 2 ^ 6
      = 2 ^ 6 * ((b % 8 * 64 + b1 % 64) * 64 + b2 % 64) := by
    rw [lor_eq_add 12 _ _ (by omega)]
    omega
  rw [h1, h2, lor_eq_add 6 _ _ (by omega)]
  omega

theorem first_ascii (b : Nat) (hb : b < 0x80) : first b = 0xF0 := by
  unfold first; rw [if_pos hb]

theorem first_two (b : Nat) (h : 0xC2 ≤ b ∧ b ≤ 0xDF) : first b = 0x02 := by
  unfold first
  repeat (first | rw [if_pos (by omega)] | rw [if_neg (by omega)])

theorem first_E0 : first 0xE0 = 0x13 := by decide

theorem first_ED : first 0xED = 0x23 := by decide

theorem first_F0 : first 0xF0 = 0x34 := by decide

theorem first_F4 : first 0xF4 = 0x44 := by decide

theorem first_three (b : Nat) (h : 0xE1 ≤ b ∧ b ≤ 0xEF) (h' : b ≠ 0xED) : first b = 0x03 := by
  unfold first
  by_cases hc : b < 0xED <;>
    repeat (first | rw [if_pos (by omega)] | rw [if_neg (by omega)])

theorem first_four (b : Nat) (h : 0xF1 ≤ b ∧ b ≤ 0xF3) : first b = 0x04 := by
  unfold first
  repeat (first | rw [if_pos (by omega)] | rw [if_neg (by omega)])

theorem first_invalid (b : Nat) (h : (0x80 ≤ b ∧ b < 0xC2) ∨ 0xF5 ≤ b) : first b = 0xF1 := by
  unfold first
  rcases h with h | h <;>
    repeat (first | rw [if_pos (by omega)] | rw [if_neg (by omega)])

theorem decodeRune_ascii (b : Nat) (t : GoString) (hb : b < 0x80) :
    decodeRune (b :: t) = (b, 1) := by
  simp [decodeRune, first_ascii b hb]

theorem decodeRune_invalid (b : Nat) (t : GoString) (h : (0x80 ≤ b ∧ b < 0xC2) ∨ 0xF5 ≤ b) :
    decodeRune (b :: t) = (RuneError, 1) := by
  simp [decodeRune, first_invalid b h]

theorem decodeRune_two (b b1 : Nat) (q : GoString) (hb : 0xC2 ≤ b ∧ b ≤ 0xDF)
    (h1 : 0x80 ≤ b1 ∧ b1 ≤ 0xBF) :
    decodeRune (b :: b1 :: q) = (b % 32 * 64 + b1 % 64, 2) := by
  have c1 : ¬ (b1 < 0x80 ∨ 0xBF < b1) := by omega
  have a1 : (2 &&& 7 : Nat) = 2 := by decide
  simp [decodeRune, first_two b hb, acceptRanges, c1, rune_two, a1]

theorem decodeRune_three (b b1 b2 : Nat) (q : GoString) (hb : 0xE0 ≤ b ∧ b ≤ 0xEF)
    (h1 : 0x80 ≤ b1 ∧ b1 ≤ 0xBF ∧ (b = 0xE0 → 0xA0 ≤ b1) ∧ (b = 0xED → b1 ≤ 0x9F))
    (h2 : 0x80 ≤ b2 ∧ b2 ≤ 0xBF) :
    decodeRune (b :: b1 :: b2 :: q) = (b % 16 * 4096 + b1 % 64 * 64 + b2 % 64, 3) := by
  have c2 : ¬ (b2 < 0x80 ∨ 0xBF < b2) := by omega
  have a1 : (0x13 &&& 7 : Nat) = 3 := by decide
  have a2 : (0x23 &&& 7 : Nat) = 3 := by decide
  have a3 : (0x03 &&& 7 : Nat) = 3 := by decide
  by_cases e0 : b = 0xE0
  · subst e0
    have c1 : ¬ (b1 < 0xA0 ∨ 0xBF < b1) := by omega
    simp [decodeRune, first_E0, acceptRanges, c1, c2, rune_three, a1]
  · by_cases ed : b = 0xED
    · subst ed
      have c1 : ¬ (b1 < 0x80 ∨ 0x9F < b1) := by omega
      simp [decodeRune, first_ED, acceptRanges, c1, c2, rune_three, a2]
    · have c1 : ¬ (b1 < 0x80 ∨ 0xBF < b1) := by omega
      simp [decodeRune, first_three b (by omega) ed, acceptRanges, c1, c2, rune_three, a3]

theorem decodeRune_four (b b1 b2 b3 : Nat) (q : GoString) (hb : 0xF0 ≤ b ∧ b ≤ 0xF4)
    (h1 : 0x80 ≤ b1 ∧ b1 ≤ 0xBF ∧ (b = 0xF0 → 0x90 ≤ b1) ∧ (b = 0xF4 → b1 ≤ 0x8F))
    (h2 : 0x80 ≤ b2 ∧ b2 ≤ 0xBF) (h3 : 0x80 ≤ b3 ∧ b3 ≤ 0xBF) :
    decodeRune (b :: b1 :: b2 :: b3 :: q)
      = (b % 8 * 262144 + b1 % 64 * 4096 + b2 % 64 * 64 + b3 % 64, 4) := by
  have c2 : ¬ (b2 < 0x80 ∨ 0xBF < b2) := by omega
  have c3 : ¬ (b3 < 0x80 ∨ 0xBF < b3) := by omega
  have a1 : (0x34 &&& 7 : Nat) = 4 := by decide
  have a2 : (0x44 &&& 7 : Nat) = 4 := by decide
  have a3 : (0x04 &&& 7 : Nat) = 4 := by decide
  by_cases e0 : b = 0xF0
  · subst e0
    have c1 : ¬ (b1 < 0x90 ∨ 0xBF < b1) := by omega
    simp [decodeRune, first_F0, acceptRanges, c1, c2, c3, rune_four, a1]
  · by_cases ed : b = 0xF4
    · subst ed
      have c1 : ¬ (b1 < 0x80 ∨ 0x8F < b1) := by omega
      simp [decodeRune, first_F4, acceptRanges, c1, c2, c3, rune_four, a2]
    · have c1 : ¬ (b1 < 0x80 ∨ 0xBF < b1) := by omega
      simp [decodeRune, first_four b (by omega), acceptRanges, c1, c2, c3, rune_four, a3]

theorem three_aux (b : Nat) (t : GoString) (x lo hi : Nat) (hx : first b = x)
    (hlt : ¬ x ≥ 0xF0) (hsz : x &&& 7 = 3) (hacc : acceptRanges (x >>> 4) = (lo, hi))
    (hv : ¬ ((decodeRune (b :: t)).1 = RuneError ∧ (decodeRune (b :: t)).2 = 1)) :
    ∃ b1 b2 q, t = b1 :: b2 :: q ∧ (lo ≤ b1 ∧ b1 ≤ hi) ∧ (0x80 ≤ b2 ∧ b2 ≤ 0xBF) := by
  rcases t with _ | ⟨b1, _ | ⟨b2, q⟩⟩
  · exfalso; apply hv
    simp [decodeRune, hx, hlt, hsz]
  · exfalso; apply hv
    simp [decodeRune, hx, hlt, hsz]
  · by_cases c1 : b1 < lo ∨ hi < b1
    · exfalso; apply hv
      simp [decodeRune, hx, hlt, hsz, hacc, c1]
    · by_cases c2 : b2 < 0x80 ∨ 0xBF < b2
      · exfalso; apply hv
        simp [decodeRune, hx, hlt, hsz, hacc, c1, c2]
      · exact ⟨b1, b2, q, rfl, by omega, by omega⟩

theorem four_aux (b : Nat) (t : GoString) (x lo hi : Nat) (hx : first b = x)
    (hlt : ¬ x ≥ 0xF0) (hsz : x &&& 7 = 4) (hacc : acceptRanges (x >>> 4) = (lo, hi))
    (hv : ¬ ((decodeRune (b :: t)).1 = RuneError ∧ (decodeRune (b :: t)).2 = 1)) :
    ∃ b1 b2 b3 q, t = b1 :: b2 :: b3 :: q ∧ (lo ≤ b1 ∧ b1 ≤ hi) ∧ (0x80 ≤ b2 ∧ b2 ≤ 0xBF) ∧
      (0x80 ≤ b3 ∧ b3 ≤ 0xBF) := by
  rcases t with _ | ⟨b1, _ | ⟨b2, _ | ⟨b3, q⟩⟩⟩
  · exfalso; apply hv
    simp [decodeRune, hx, hlt, hsz]
  · exfalso; apply hv
    simp [decodeRune, hx, hlt, hsz]
  · exfalso; apply hv
    simp [decodeRune, hx, hlt, hsz]
  · by_cases c1 : b1 < lo ∨ hi < b1
    · exfalso; apply hv
      simp [decodeRune, hx, hlt, hsz, hacc, c1]
    · by_cases c2 : b2 < 0x80 ∨ 0xBF < b2
      · exfalso; apply hv
        simp [decodeRune, hx, hlt, hsz, hacc, c1, c2]
      · by_cases c3 : b3 < 0x80 ∨ 0xBF < b3
        · exfalso; apply hv
          simp [decodeRune, hx, hlt, hsz, hacc, c1, c2, c3]
        · exact ⟨b1, b2, b3, q, rfl, by omega, by omega, by omega⟩

/-- A decoding step at a non-ASCII byte that does not report the width-1
`RuneError` has read a complete two-, three- or four-byte sequence. -/
theorem decodeRune_shape (b : Nat) (t : GoString) (hb : 0x80 ≤ b)
    (hv : ¬ ((decodeRune (b :: t)).1 = RuneError ∧ (decodeRune (b :: t)).2 = 1)) :
    (∃ b1 q, t = b1 :: q ∧ (0xC2 ≤ b ∧ b ≤ 0xDF) ∧ (0x80 ≤ b1 ∧ b1 ≤ 0xBF)) ∨
    (∃ b1 b2 q, t = b1 :: b2 :: q ∧ (0xE0 ≤ b ∧ b ≤ 0xEF) ∧
      (0x80 ≤ b1 ∧ b1 ≤ 0xBF ∧ (b = 0xE0 → 0xA0 ≤ b1) ∧ (b = 0xED → b1 ≤ 0x9F)) ∧
      (0x80 ≤ b2 ∧ b2 ≤ 0xBF)) ∨
    (∃ b1 b2 b3 q, t = b1 :: b2 :: b3 :: q ∧ (0xF0 ≤ b ∧ b ≤ 0xF4) ∧
      (0x80 ≤ b1 ∧ b1 ≤ 0xBF ∧ (b = 0xF0 → 0x90 ≤ b1) ∧ (b = 0xF4 → b1 ≤ 0x8F)) ∧
      (0x80 ≤ b2 ∧ b2 ≤ 0xBF) ∧ (0x80 ≤ b3 ∧ b3 ≤ 0xBF)) := by
  have a2 : (2 &&& 7 : Nat) = 2 := by decide
  have a13 : (0x13 &&& 7 : Nat) = 3 := by decide
  have a23 : (0x23 &&& 7 : Nat) = 3 := by decide
  have a03 : (0x03 &&& 7 : Nat) = 3 := by decide
  have a34 : (0x34 &&& 7 : Nat) = 4 := by decide
  have a44 : (0x44 &&& 7 : Nat) = 4 := by decide
  have a04 : (0x04 &&& 7 : Nat) = 4 := by decide
  by_cases hinv : (0x80 ≤ b ∧ b < 0xC2) ∨ 0xF5 ≤ b
  · rw [decodeRune_invalid b t hinv] at hv
    exact absurd ⟨rfl, rfl⟩ hv
  · by_cases h2 : b ≤ 0xDF
    · -- two bytes
      left
      rcases t with _ | ⟨b1, q⟩
      · exfalso; apply hv
        simp [decodeRune, first_two b (by omega), a2]
      · by_cases c1 : b1 < 0x80 ∨ 0xBF < b1
        · exfalso; apply hv
          simp [decodeRune, first_two b (by omega), acceptRanges, c1, a2]
        · exact ⟨b1, q, rfl, by omega, by omega⟩
    · by_cases h3 : b ≤ 0xEF
      · -- three bytes
        right; left
        by_cases e0 : b = 0xE0
        · obtain ⟨b1, b2, q, ht, h1, h2'⟩ := three_aux b t 0x13 0xA0 0xBF (by rw [e0]; exact first_E0)
            (by decide) (by decide) (by decide) hv
          exact ⟨b1, b2, q, ht, by omega, by omega, by omega⟩
        · by_cases ed : b = 0xED
          · obtain ⟨b1, b2, q, ht, h1, h2'⟩ := three_aux b t 0x23 0x80 0x9F
              (by rw [ed]; exact first_ED) (by decide) (by decide) (by decide) hv
            exact ⟨b1, b2, q, ht, by omega, by omega, by omega⟩
          · obtain ⟨b1, b2, q, ht, h1, h2'⟩ := three_aux b t 0x03 0x80 0xBF
              (first_three b (by omega) ed) (by decide) (by decide) (by decide) hv
            exact ⟨b1, b2, q, ht, by omega, by omega, by omega⟩
      · -- four bytes
        right; right
        by_cases e0 : b = 0xF0
        · obtain ⟨b1, b2, b3, q, ht, h1, h2', h3'⟩ := four_aux b t 0x34 0x90 0xBF
            (by rw [e0]; exact first_F0) (by decide) (by decide) (by decide) hv
          exact ⟨b1, b2, b3, q, ht, by omega, by omega, by omega, by omega⟩
        · by_cases ed : b = 0xF4
          · obtain ⟨b1, b2, b3, q, ht, h1, h2', h3'⟩ := four_aux b t 0x44 0x80 0x8F
              (by rw [ed]; exact first_F4) (by decide) (by decide) (by decide) hv
            exact ⟨b1, b2, b3, q, ht, by omega, by omega, by omega, by omega⟩
          · obtain ⟨b1, b2, b3, q, ht, h1, h2', h3'⟩ := four_aux b t 0x04 0x80 0xBF
              (first_four b (by omega)) (by decide) (by decide) (by decide) hv
            exact ⟨b1, b2, b3, q, ht, by omega, by omega, by omega, by omega⟩

/-- A decoding step at a non-ASCII byte that does not report the width-1
`RuneError` consumes a chunk of two to four bytes, all at least `0x80`; the
rune decoded is encoded by exactly that chunk, and the step reads nothing
beyond the chunk. -/
theorem decodeRune_chunk (b : Nat) (t : GoString) (hb : 0x80 ≤ b)
    (hv : ¬ ((decodeRune (b :: t)).1 = RuneError ∧ (decodeRune (b :: t)).2 = 1)) :
    ∃ chunk rest : GoString, b :: t = chunk ++ rest ∧
      (decodeRune (b :: t)).2 = chunk.length ∧ 2 ≤ chunk.length ∧ chunk.length ≤ 4 ∧
      (∀ c ∈ chunk, 0x80 ≤ c) ∧ appendRune (decodeRune (b :: t)).1 = chunk ∧
      (∀ q, decodeRune (chunk ++ q) = decodeRune (b :: t)) ∧
      0x80 ≤ (decodeRune (b :: t)).1 := by
  rcases decodeRune_shape b t hb hv with ⟨b1, q, ht, h0, h1⟩ | ⟨b1, b2, q, ht, h0, h1, h2⟩ |
    ⟨b1, b2, b3, q, ht, h0, h1, h2, h3⟩
  · subst ht
    have hd := decodeRune_two b b1 q h0 h1
    refine ⟨[b, b1], q, rfl, by rw [hd]; rfl, by simp, by simp, ?_, ?_, ?_, ?_⟩
    · intro c hc
      simp at hc
      omega
    · rw [hd]
      show appendRune (b % 32 * 64 + b1 % 64) = _
      rw [appendRune_two _ (by omega) (by omega)]
      congr 1
      · omega
      · congr 1; omega
    · intro q'
      rw [hd]
      exact decodeRune_two b b1 q' h0 h1
    · rw [hd]
      show 0x80 ≤ b % 32 * 64 + b1 % 64
      omega
  · subst ht
    have hd := decodeRune_three b b1 b2 q h0 h1 h2
    refine ⟨[b, b1, b2], q, rfl, by rw [hd]; rfl, by simp, by simp, ?_, ?_, ?_, ?_⟩
    · intro c hc
      simp at hc
      omega
    · rw [hd]
      show appendRune (b % 16 * 4096 + b1 % 64 * 64 + b2 % 64) = _
      rw [appendRune_three _ (by omega) (by omega) (by omega)]
      congr 1
      · omega
      · congr 1
        · omega
        · congr 1; omega
    · intro q'
      rw [hd]
      exact decodeRune_three b b1 b2 q' h0 h1 h2
    · rw [hd]
      show 0x80 ≤ b % 16 * 4096 + b1 % 64 * 64 + b2 % 64
      omega
  · subst ht
    have hd := decodeRune_four b b1 b2 b3 q h0 h1 h2 h3
    refine ⟨[b, b1, b2, b3], q, rfl, by rw [hd]; rfl, by simp, by simp, ?_, ?_, ?_, ?_⟩
    · intro c hc
      simp at hc
      omega
    · rw [hd]
      show appendRune (b % 8 * 262144 + b1 % 64 * 4096 + b2 % 64 * 64 + b3 % 64) = _
      rw [appendRune_four _ (by omega) (by omega)]
      congr 1
      · omega
      · congr 1
        · omega
        · congr 1
          · omega
          · congr 1; omega
    · intro q'
      rw [hd]
      exact decodeRune_four b b1 b2 b3 q' h0 h1 h2 h3
    · rw [hd]
      show 0x80 ≤ b % 8 * 262144 + b1 % 64 * 4096 + b2 % 64 * 64 + b3 % 64
      omega

/-! ## JSON strings: what `appendString` writes, the scanner and `unquote` read back -/

theorem hex_facts : ∀ b, b < 128 →
    isHex (hex (b >>> 4)) = true ∧ isHex (hex (b &&& 0xF)) = true ∧
    ((hexValue 48 * 16 + hexValue 48) * 16 + hexValue (hex (b >>> 4))) * 16
      + hexValue (hex (b &&& 0xF)) = b := by
  decide

theorem appendStringBody_nil (m : Nat) : appendStringBody m [] = [] := by
  cases m <;> rfl

theorem appendStringStep_ascii (b : Nat) (t : GoString) (hb : b < 0x80) :
    appendStringStep b t = (escapeAscii b, t) := by
  simp only [appendStringStep, if_pos hb, escapeAscii]
  split_ifs <;> rfl

theorem scanString_escapeAscii (b : Nat) (X : GoString) (hb : b < 0x80) :
    scanStringFrom .inString (escapeAscii b ++ X)
      = (scanStringFrom .inString X).map (fun r => (escapeAscii b ++ r.1, r.2)) := by
  unfold escapeAscii
  split_ifs with h1 h2 h3 h4 h5 h6 h7
  · simp only [htmlSafe, Bool.and_eq_true, decide_eq_true_eq, bne_iff_ne, ne_eq] at h1
    have e1 : ¬ b = 34 := by omega
    have e2 : ¬ b = 92 := by omega
    have e3 : ¬ b < 32 := by omega
    simp [scanStringFrom, e1, e2, e3]
  · rcases h2 with h2 | h2 <;> subst h2 <;>
      simp [scanStringFrom, Option.map_map, Function.comp_def]
  · simp [scanStringFrom, Option.map_map, Function.comp_def]
  · simp [scanStringFrom, Option.map_map, Function.comp_def]
  · simp [scanStringFrom, Option.map_map, Function.comp_def]
  · simp [scanStringFrom, Option.map_map, Function.comp_def]
  · simp [scanStringFrom, Option.map_map, Function.comp_def]
  · obtain ⟨x1, x2, -⟩ := hex_facts b hb
    have x0 : isHex 48 = true := by decide
    simp [scanStringFrom, x0, x1, x2, Option.map_map, Function.comp_def]

theorem unquoteStep_escapeAscii (b : Nat) (Y : GoString) (hb : b < 0x80) :
    ∃ c t, escapeAscii b ++ Y = c :: t ∧ unquoteStep c t = some ([b], Y) := by
  unfold escapeAscii
  split_ifs with h1 h2 h3 h4 h5 h6 h7
  · simp only [htmlSafe, Bool.and_eq_true, decide_eq_true_eq, bne_iff_ne, ne_eq] at h1
    have e1 : ¬ b = 34 := by omega
    have e2 : ¬ b = 92 := by omega
    have e3 : ¬ b < 32 := by omega
    exact ⟨b, Y, rfl, by simp [unquoteStep, e1, e2, e3, hb]⟩
  · rcases h2 with h2 | h2 <;> subst h2
    · exact ⟨92, 92 :: Y, rfl, by simp [unquoteStep]⟩
    · exact ⟨92, 34 :: Y, rfl, by simp [unquoteStep]⟩
  · subst h3; exact ⟨92, 98 :: Y, rfl, by simp [unquoteStep]⟩
  · subst h4; exact ⟨92, 102 :: Y, rfl, by simp [unquoteStep]⟩
  · subst h5; exact ⟨92, 110 :: Y, rfl, by simp [unquoteStep]⟩
  · subst h6; exact ⟨92, 114 :: Y, rfl, by simp [unquoteStep]⟩
  · subst h7; exact ⟨92, 116 :: Y, rfl, by simp [unquoteStep]⟩
  · obtain ⟨x1, x2, x3⟩ := hex_facts b hb
    have x0 : isHex 48 = true := by decide
    have hr : appendRune b = [b] := by
      unfold appendRune; rw [if_pos (by omega)]
    have hs : ¬ (0xD800 ≤ b ∧ b < 0xE000) := by omega
    refine ⟨92, 117 :: 48 :: 48 :: hex (b >>> 4) :: hex (b &&& 0xF) :: Y, rfl, ?_⟩
    simp [unquoteStep, getu4, x0, x1, x2, x3, hr, hs]

/-- The scanner copies bytes from `0x80` upwards. -/
theorem scanString_raw (chunk X : GoString) (h : ∀ c ∈ chunk, 0x80 ≤ c) :
    scanStringFrom .inString (chunk ++ X)
      = (scanStringFrom .inString X).map (fun r => (chunk ++ r.1, r.2)) := by
  induction chunk with
  | nil => simp
  | cons c cs ih =>
    have hc := h c (by simp)
    have e1 : ¬ c = 34 := by omega
    have e2 : ¬ c = 92 := by omega
    have e3 : ¬ c < 32 := by omega
    have ih' := ih (fun x hx => h x (by simp [hx]))
    simp [scanStringFrom, e1, e2, e3, ih', Option.map_map, Function.comp_def]

theorem escapeAscii_length (b : Nat) : 1 ≤ (escapeAscii b).length := by
  unfold escapeAscii
  split_ifs <;> simp

theorem unquoteStep_escapeAscii_len (b : Nat) (Y : GoString) (hb : b < 0x80) :
    ∃ c t, escapeAscii b ++ Y = c :: t ∧ unquoteStep c t = some ([b], Y) ∧
      Y.length ≤ t.length := by
  obtain ⟨c, t, h1, h2⟩ := unquoteStep_escapeAscii b Y hb
  refine ⟨c, t, h1, h2, ?_⟩
  have hl := congrArg List.length h1
  have := escapeAscii_length b
  simp at hl
  omega

theorem separator_escape :
    str "\\u202" ++ [hex (0x2028 &&& 0xF)] = [92, 117, 50, 48, 50, 56] ∧
    str "\\u202" ++ [hex (0x2029 &&& 0xF)] = [92, 117, 50, 48, 50, 57] := by
  decide

theorem scanString_separator (x : Nat) (X : GoString) (hx : x = 56 ∨ x = 57) :
    scanStringFrom .inString ([92, 117, 50, 48, 50, x] ++ X)
      = (scanStringFrom .inString X).map (fun r => ([92, 117, 50, 48, 50, x] ++ r.1, r.2)) := by
  rcases hx with hx | hx <;> subst hx <;>
    simp [scanStringFrom, isHex, Option.map_map, Function.comp_def]

theorem unquoteStep_separator (Y : GoString) :
    unquoteStep 92 (117 :: 50 :: 48 :: 50 :: 56 :: Y) = some (appendRune 0x2028, Y) ∧
    unquoteStep 92 (117 :: 50 :: 48 :: 50 :: 57 :: Y) = some (appendRune 0x2029, Y) := by
  constructor <;> simp [unquoteStep, getu4, isHex, hexValue]

theorem take_four_chunk (chunk rest : GoString) (h : chunk.length ≤ 4) :
    (chunk ++ rest).take 4 = chunk ++ rest.take (4 - chunk.length) := by
  rw [List.take_append_eq_append_take, List.take_of_length_le h]

/-- One iteration of the encoder at a position where the text is valid: it
consumes a chunk (one ASCII byte or one multi-byte sequence) and emits bytes
that the scanner accepts as part of a string literal and that `unquoteStep`
turns back into the chunk. -/
theorem appendStringStep_valid (b : Nat) (t : GoString)
    (hv : ¬ ((decodeRune (b :: t)).1 = RuneError ∧ (decodeRune (b :: t)).2 = 1)) :
    (appendStringStep b t).2 = (b :: t).drop (decodeRune (b :: t)).2 ∧
    ∃ chunk : GoString, b :: t = chunk ++ (appendStringStep b t).2 ∧ chunk ≠ [] ∧
      (∀ X, scanStringFrom .inString ((appendStringStep b t).1 ++ X)
        = (scanStringFrom .inString X).map (fun r => ((appendStringStep b t).1 ++ r.1, r.2))) ∧
      (∀ Y, ∃ c t', (appendStringStep b t).1 ++ Y = c :: t' ∧
        unquoteStep c t' = some (chunk, Y) ∧ Y.length ≤ t'.length) := by
  by_cases hb : b < 0x80
  · rw [appendStringStep_ascii b t hb, decodeRune_ascii b t hb]
    refine ⟨rfl, [b], rfl, by simp, ?_, ?_⟩
    · intro X; exact scanString_escapeAscii b X hb
    · intro Y; exact unquoteStep_escapeAscii_len b Y hb
  · obtain ⟨chunk, rest, h1, h2, h3, h4, h5, h6, h7, h8⟩ :=
      decodeRune_chunk b t (by omega) hv
    have htake : decodeRune ((b :: t).take 4) = decodeRune (b :: t) := by
      rw [h1, take_four_chunk chunk rest h4, h7, ← h1]
    have hdrop : (b :: t).drop (decodeRune (b :: t)).2 = rest := by
      rw [h2, h1, List.drop_left]
    have htk : (b :: t).take (decodeRune (b :: t)).2 = chunk := by
      rw [h2, h1, List.take_left]
    have hne : chunk ≠ [] := by
      intro h; rw [h] at h3; simp at h3
    have hstep : appendStringStep b t =
        if (decodeRune (b :: t)).1 = 0x2028 ∨ (decodeRune (b :: t)).1 = 0x2029 then
          (str "\\u202" ++ [hex ((decodeRune (b :: t)).1 &&& 0xF)], rest)
        else (chunk, rest) := by
      simp only [appendStringStep, if_neg hb, htake, if_neg hv, hdrop, htk]
    by_cases hsep : (decodeRune (b :: t)).1 = 0x2028 ∨ (decodeRune (b :: t)).1 = 0x2029
    · rw [hstep, if_pos hsep]
      refine ⟨hdrop.symm, chunk, h1, hne, ?_, ?_⟩
      · intro X
        rcases hsep with hs | hs
        · rw [hs, separator_escape.1]
          exact scanString_separator 56 X (Or.inl rfl)
        · rw [hs, separator_escape.2]
          exact scanString_separator 57 X (Or.inr rfl)
      · intro Y
        rcases hsep with hs | hs
        · rw [hs, separator_escape.1]
          rw [hs] at h6
          exact ⟨92, 117 :: 50 :: 48 :: 50 :: 56 :: Y, rfl,
            by rw [(unquoteStep_separator Y).1, h6], by simp only [List.length_cons]; omega⟩
        · rw [hs, separator_escape.2]
          rw [hs] at h6
          exact ⟨92, 117 :: 50 :: 48 :: 50 :: 57 :: Y, rfl,
            by rw [(unquoteStep_separator Y).2, h6], by simp only [List.length_cons]; omega⟩
    · rw [hstep, if_neg hsep]
      refine ⟨hdrop.symm, chunk, h1, hne, ?_, ?_⟩
      · intro X; exact scanString_raw chunk X h5
      · intro Y
        obtain ⟨c, ct, hc⟩ := List.exists_cons_of_ne_nil hne
        have hc0 : 0x80 ≤ c := h5 c (by simp [hc])
        refine ⟨c, ct ++ Y, by simp [hc], ?_, by simp⟩
        have e1 : ¬ c = 92 := by omega
        have e2 : ¬ (c = 34 ∨ c < 32) := by omega
        have e3 : ¬ c < 0x80 := by omega
        have hd : decodeRune (c :: (ct ++ Y)) = decodeRune (b :: t) := by
          have := h7 Y
          rwa [hc] at this
        simp only [unquoteStep, if_neg e1, if_neg e2, if_neg e3, hd, h6, h2]
        have : (c :: (ct ++ Y)) = chunk ++ Y := by simp [hc]
        rw [this, List.drop_left]

theorem validFrom_succ (n b : Nat) (t : GoString) (h : validFrom (n + 1) (b :: t) = true) :
    ¬ ((decodeRune (b :: t)).1 = RuneError ∧ (decodeRune (b :: t)).2 = 1) ∧
    validFrom n ((b :: t).drop (decodeRune (b :: t)).2) = true := by
  simp only [validFrom] at h
  by_cases hbad : (decodeRune (b :: t)).1 = RuneError ∧ (decodeRune (b :: t)).2 = 1
  · rw [if_pos hbad] at h; exact absurd h (by decide)
  · rw [if_neg hbad] at h; exact ⟨hbad, h⟩

/-- For valid UTF-8 text `s`, the string body `appendStringBody` writes is
accepted by the scanner up to the closing quote, and `unquoteBytes` turns it
back into `s`. -/
theorem string_roundtrip : ∀ (n : Nat) (s : GoString), validFrom n s = true →
    ∀ m, s.length ≤ m →
    (∀ X, scanStringFrom .inString (appendStringBody m s ++ 34 :: X)
      = some (appendStringBody m s, X)) ∧
    (∀ k, (appendStringBody m s).length ≤ k →
      unquoteBytes k (appendStringBody m s) = some s) := by
  intro n
  induction n with
  | zero =>
    intro s hv m hm
    cases s with
    | nil =>
      rw [appendStringBody_nil]
      refine ⟨fun X => by simp [scanStringFrom], fun k _ => by cases k <;> rfl⟩
    | cons b t => simp [validFrom] at hv
  | succ n ih =>
    intro s hv m hm
    cases s with
    | nil =>
      rw [appendStringBody_nil]
      refine ⟨fun X => by simp [scanStringFrom], fun k _ => by cases k <;> rfl⟩
    | cons b t =>
      obtain ⟨hok, hrest⟩ := validFrom_succ n b t hv
      obtain ⟨hR, chunk, hsplit, hne, hscan, hunq⟩ := appendStringStep_valid b t hok
      cases m with
      | zero => simp at hm
      | succ m =>
        rw [← hR] at hrest
        have hlen : (appendStringStep b t).2.length ≤ m := by
          have h1 := congrArg List.length hsplit
          have h2 : 1 ≤ chunk.length := by
            cases chunk with
            | nil => exact absurd rfl hne
            | cons _ _ => simp
          simp at h1 hm
          omega
        obtain ⟨S, U⟩ := ih _ hrest m hlen
        rw [appendStringBody.eq_3]
        constructor
        · intro X
          rw [List.append_assoc, hscan, S]
          rfl
        · intro k hk
          obtain ⟨c, t', he, hs, hl⟩ := hunq (appendStringBody m (appendStringStep b t).2)
          rw [he] at hk ⊢
          cases k with
          | zero => simp at hk
          | succ k =>
            rw [unquoteBytes.eq_3, hs]
            simp only
            rw [U k (by simp at hk; omega)]
            simp [← hsplit]

/-! ## The iteration bounds are never exhausted

The loops above take a bound on the number of iterations.  Every iteration
consumes at least one byte, so a bound of the length of the input (plus one
for the parser) is never reached: a larger bound gives the same result. -/

theorem decodeRune_width (b : Nat) (t : GoString) :
    1 ≤ (decodeRune (b :: t)).2 := by
  by_cases hb : b < 0x80
  · rw [decodeRune_ascii b t hb]
  · by_cases hv : (decodeRune (b :: t)).1 = RuneError ∧ (decodeRune (b :: t)).2 = 1
    · rw [hv.2]
    · obtain ⟨chunk, rest, -, h2, h3, -⟩ := decodeRune_chunk b t (by omega) hv
      omega

theorem appendStringStep_length (b : Nat) (t : GoString) :
    (appendStringStep b t).2.length ≤ t.length := by
  have hw := decodeRune_width b (t.take 3)
  have ht : (b :: t).take 4 = b :: t.take 3 := rfl
  simp only [appendStringStep, ht]
  split_ifs <;> simp only [List.length_drop, List.length_cons] <;> omega

theorem appendStringBody_bound : ∀ (n m : Nat) (s : GoString), s.length ≤ n → s.length ≤ m →
    appendStringBody n s = appendStringBody m s := by
  intro n
  induction n with
  | zero =>
    intro m s hn hm
    have : s = [] := List.length_eq_zero.1 (by omega)
    subst this
    rw [appendStringBody_nil, appendStringBody_nil]
  | succ n ih =>
    intro m s hn hm
    cases s with
    | nil => rw [appendStringBody_nil, appendStringBody_nil]
    | cons b t =>
      cases m with
      | zero => simp at hm
      | succ m =>
        have hl := appendStringStep_length b t
        simp only [List.length_cons] at hn hm
        rw [appendStringBody.eq_3, appendStringBody.eq_3,
          ih m _ (by omega) (by omega)]

theorem unquoteStep_length (c : Nat) (t : GoString) (r : GoString × GoString)
    (h : unquoteStep c t = some r) : r.2.length ≤ t.length := by
  have hw := decodeRune_width c t
  by_cases h1 : c = 92
  · cases t with
    | nil => simp [unquoteStep, h1] at h
    | cons e t1 =>
      by_cases hu : e = 117
      · have hne : ¬ (e = 34 ∨ e = 92 ∨ e = 47 ∨ e = 39) := by omega
        simp only [unquoteStep, if_pos h1, if_neg hne, hu, if_true,
          show ¬ (117 : Nat) = 98 by decide, show ¬ (117 : Nat) = 102 by decide,
          show ¬ (117 : Nat) = 110 by decide, show ¬ (117 : Nat) = 114 by decide,
          show ¬ (117 : Nat) = 116 by decide, if_false] at h
        cases hg : getu4 (c :: 117 :: t1) with
        | none => rw [hg] at h; exact absurd h (by simp)
        | some rr =>
          rw [hg] at h
          simp only at h
          split_ifs at h <;> cases h <;>
            simp only [List.length_drop, List.length_cons] <;> omega
      · simp only [unquoteStep, if_pos h1, if_neg hu] at h
        split_ifs at h <;> (cases h; simp)
  · simp only [unquoteStep, if_neg h1] at h
    split_ifs at h
    · cases h; simp
    · cases h
      simp only [List.length_drop, List.length_cons]
      omega

theorem unquoteBytes_bound : ∀ (n m : Nat) (s : GoString), s.length ≤ n → s.length ≤ m →
    unquoteBytes n s = unquoteBytes m s := by
  intro n
  induction n with
  | zero =>
    intro m s hn hm
    have : s = [] := List.length_eq_zero.1 (by omega)
    subst this
    cases m <;> rfl
  | succ n ih =>
    intro m s hn hm
    cases s with
    | nil => cases m <;> rfl
    | cons c t =>
      cases m with
      | zero => simp at hm
      | succ m =>
        simp only [List.length_cons] at hn hm
        rw [unquoteBytes.eq_3, unquoteBytes.eq_3]
        cases hs : unquoteStep c t with
        | none => rfl
        | some r =>
          have hl := unquoteStep_length c t r hs
          simp only
          rw [ih m _ (by omega) (by omega)]

theorem validFrom_bound : ∀ (n m : Nat) (s : GoString), s.length ≤ n → s.length ≤ m →
    validFrom n s = validFrom m s := by
  intro n
  induction n with
  | zero =>
    intro m s hn hm
    have : s = [] := List.length_eq_zero.1 (by omega)
    subst this
    cases m <;> rfl
  | succ n ih =>
    intro m s hn hm
    cases s with
    | nil => cases m <;> rfl
    | cons c t =>
      cases m with
      | zero => simp at hm
      | succ m =>
        have hw := decodeRune_width c t
        simp only [List.length_cons] at hn hm
        simp only [validFrom]
        split_ifs
        · rfl
        · exact ih m _ (by simp only [List.length_drop, List.length_cons]; omega)
            (by simp only [List.length_drop, List.length_cons]; omega)

theorem appendFoldedName_bound : ∀ (n m : Nat) (s : GoString), s.length ≤ n → s.length ≤ m →
    appendFoldedName n s = appendFoldedName m s := by
  intro n
  induction n with
  | zero =>
    intro m s hn hm
    have : s = [] := List.length_eq_zero.1 (by omega)
    subst this
    cases m <;> rfl
  | succ n ih =>
    intro m s hn hm
    cases s with
    | nil => cases m <;> rfl
    | cons c t =>
      cases m with
      | zero => simp at hm
      | succ m =>
        have hw := decodeRune_width c t
        simp only [List.length_cons] at hn hm
        by_cases hc : c < 0x80
        · simp only [appendFoldedName, if_pos hc]
          rw [ih m t (by omega) (by omega)]
        · simp only [appendFoldedName, if_neg hc]
          rw [ih m _ (by simp only [List.length_drop, List.length_cons]; omega)
            (by simp only [List.length_drop, List.length_cons]; omega)]

theorem skipSpace_length (l : GoString) : (skipSpace l).length ≤ l.length := by
  induction l with
  | nil => simp [skipSpace]
  | cons c t ih =>
    simp only [skipSpace]
    split_ifs
    · simp only [List.length_cons]; omega
    · exact le_refl _

theorem scanStringFrom_length : ∀ (inp : GoString) (st : StringState) (r : GoString × GoString),
    scanStringFrom st inp = some r → r.2.length ≤ inp.length := by
  intro inp
  induction inp with
  | nil => intro st r h; cases st <;> simp [scanStringFrom] at h
  | cons c t ih =>
    intro st r h
    have key : ∀ (st' : StringState),
        (scanStringFrom st' t).map (fun x => (c :: x.1, x.2)) = some r →
        r.2.length ≤ (c :: t).length := by
      intro st' hm
      cases hs : scanStringFrom st' t with
      | none => rw [hs] at hm; simp at hm
      | some x =>
        rw [hs] at hm
        simp only [Option.map_some', Option.some.injEq] at hm
        have := ih st' x hs
        rw [← hm]
        simp only [List.length_cons]; omega
    cases st with
    | inString =>
      simp only [scanStringFrom] at h
      split_ifs at h
      · cases h; simp
      · exact key _ h
      · exact key _ h
    | inStringEsc =>
      simp only [scanStringFrom] at h
      split_ifs at h
      · exact key _ h
      · exact key _ h
    | hex k =>
      cases k with
      | zero =>
        simp only [scanStringFrom] at h
        split_ifs at h
        exact key _ h
      | succ k =>
        simp only [scanStringFrom] at h
        split_ifs at h
        exact key _ h

theorem scanDigits_length (l : GoString) : (scanDigits l).2.length ≤ l.length := by
  induction l with
  | nil => simp [scanDigits]
  | cons c t ih =>
    simp only [scanDigits]
    split_ifs
    · simp only [List.length_cons]; omega
    · exact le_refl _

theorem scanNumber_length (inp : GoString) (r : GoString × GoString)
    (h : scanNumber inp = some r) : r.2.length ≤ inp.length := by
  have hI : ∀ x, scanIntPart inp = some x → x.2.length ≤ inp.length := by
    intro x hx
    have h1 : (if inp.head? = some 45 then inp.tail else inp).length ≤ inp.length := by
      split_ifs
      · simp
      · exact le_refl _
    simp only [scanIntPart] at hx
    cases hr : (if inp.head? = some 45 then inp.tail else inp) with
    | nil => rw [hr] at hx; simp at hx
    | cons d t =>
      rw [hr] at hx h1
      have hd := scanDigits_length t
      simp only [List.length_cons] at h1
      simp only at hx
      split_ifs at hx <;> cases hx <;> simp only <;> omega
  have hF : ∀ l x, scanFrac l = some x → x.2.length ≤ l.length := by
    intro l x hx
    unfold scanFrac at hx
    split at hx
    · rename_i t
      have hd := scanDigits_length t
      split_ifs at hx
      cases hx
      simp only [List.length_cons]; omega
    · cases hx; exact le_refl _
  have hE : ∀ l x, scanExp l = some x → x.2.length ≤ l.length := by
    intro l x hx
    cases l with
    | nil => simp [scanExp] at hx; cases hx; simp
    | cons e t =>
      have h1 : t.tail.length ≤ t.length := by simp
      have hd1 := scanDigits_length t.tail
      have hd2 := scanDigits_length t
      simp only [scanExp] at hx
      split_ifs at hx <;> cases hx <;> dsimp only <;> simp only [List.length_cons] <;> omega
  simp only [scanNumber] at h
  cases h1 : scanIntPart inp with
  | none => rw [h1] at h; simp at h
  | some x =>
    rw [h1] at h
    simp only at h
    cases h2 : scanFrac x.2 with
    | none => rw [h2] at h; simp at h
    | some y =>
      rw [h2] at h
      simp only at h
      cases h3 : scanExp y.2 with
      | none => rw [h3] at h; simp at h
      | some z =>
        rw [h3] at h
        simp only [Option.some.injEq] at h
        have a1 := hI x h1
        have a2 := hF _ y h2
        have a3 := hE _ z h3
        rw [← h]
        simp only
        omega

theorem expect_length : ∀ (pre inp r : GoString), expect pre inp = some r →
    r.length ≤ inp.length := by
  intro pre
  induction pre with
  | nil => intro inp r h; simp [expect] at h; rw [h]
  | cons p ps ih =>
    intro inp r h
    cases inp with
    | nil => simp [expect] at h
    | cons c t =>
      simp only [expect] at h
      split_ifs at h
      have := ih t r h
      simp only [List.length_cons]; omega

/-- With a bound above the length of the input, the parser gives the same
result for the next larger bound, and what it leaves is no longer than the
input. -/
theorem parser_bound : ∀ fuel : Nat,
    (∀ depth inp, List.length inp < fuel →
      parseValue (fuel + 1) depth inp = parseValue fuel depth inp ∧
      ∀ r, parseValue fuel depth inp = some r → r.2.length ≤ inp.length) ∧
    (∀ depth inp acc, List.length inp < fuel →
      parseElems (fuel + 1) depth inp acc = parseElems fuel depth inp acc ∧
      ∀ r, parseElems fuel depth inp acc = some r → r.2.length ≤ inp.length) ∧
    (∀ depth inp acc, List.length inp < fuel →
      parseMembers (fuel + 1) depth inp acc = parseMembers fuel depth inp acc ∧
      ∀ r, parseMembers fuel depth inp acc = some r → r.2.length ≤ inp.length) := by
  intro fuel
  induction fuel with
  | zero =>
    exact ⟨fun _ _ h => absurd h (by omega), fun _ _ _ h => absurd h (by omega),
      fun _ _ _ h => absurd h (by omega)⟩
  | succ fuel ih =>
    obtain ⟨ihV, ihE, ihM⟩ := ih
    refine ⟨?_, ?_, ?_⟩
    · -- parseValue
      intro depth inp hlen
      cases inp with
      | nil => exact ⟨rfl, fun r h => by simp [parseValue] at h⟩
      | cons c rest =>
        simp only [List.length_cons] at hlen
        have hsk := skipSpace_length rest
        rw [parseValue.eq_3, parseValue.eq_3]
        by_cases h123 : c = 123
        · simp only [if_pos h123]
          by_cases hd : depth ≥ maxNestingDepth
          · simp only [if_pos hd]
            exact ⟨trivial, fun r h => by simp at h⟩
          · simp only [if_neg hd]
            cases hs : skipSpace rest with
            | nil => exact ⟨rfl, fun r h => by simp at h⟩
            | cons c1 rest1 =>
              rw [hs] at hsk
              simp only [List.length_cons] at hsk
              by_cases h125 : c1 = 125
              · simp only [if_pos h125]
                refine ⟨trivial, fun r h => ?_⟩
                cases h
                simp only [List.length_cons]; omega
              · simp only [if_neg h125]
                obtain ⟨e, l⟩ := ihM (depth + 1) (c1 :: rest1) []
                  (by simp only [List.length_cons]; omega)
                refine ⟨e, fun r h => ?_⟩
                have := l r h
                simp only [List.length_cons] at this ⊢; omega
        · simp only [if_neg h123]
          by_cases h91 : c = 91
          · simp only [if_pos h91]
            by_cases hd : depth ≥ maxNestingDepth
            · simp only [if_pos hd]
              exact ⟨trivial, fun r h => by simp at h⟩
            · simp only [if_neg hd]
              cases hs : skipSpace rest with
              | nil => exact ⟨rfl, fun r h => by simp at h⟩
              | cons c1 rest1 =>
                rw [hs] at hsk
                simp only [List.length_cons] at hsk
                by_cases h93 : c1 = 93
                · simp only [if_pos h93]
                  refine ⟨trivial, fun r h => ?_⟩
                  cases h
                  simp only [List.length_cons]; omega
                · simp only [if_neg h93]
                  obtain ⟨e, l⟩ := ihV (depth + 1) (c1 :: rest1)
                    (by simp only [List.length_cons]; omega)
                  rw [e]
                  cases hv : parseValue fuel (depth + 1) (c1 :: rest1) with
                  | none => exact ⟨rfl, fun r h => by simp at h⟩
                  | some x =>
                    have lx := l x hv
                    simp only [List.length_cons] at lx
                    obtain ⟨e2, l2⟩ := ihE (depth + 1) x.2 [x.1] (by omega)
                    refine ⟨e2, fun r h => ?_⟩
                    have := l2 r h
                    simp only [List.length_cons]; omega
          · simp only [if_neg h91]
            refine ⟨trivial, fun r h => ?_⟩
            split_ifs at h
            · cases hs : scanString rest with
              | none => rw [hs] at h; simp at h
              | some x =>
                have := scanStringFrom_length rest _ x hs
                rw [hs] at h
                simp only at h
                cases hu : unquote x.1 with
                | none => rw [hu] at h; simp at h
                | some s =>
                  rw [hu] at h
                  cases h
                  simp only [List.length_cons]; omega
            · cases hs : scanNumber (c :: rest) with
              | none => rw [hs] at h; simp at h
              | some x =>
                have := scanNumber_length _ x hs
                rw [hs] at h
                cases h
                exact this
            all_goals
              rename_i hexp
              first
                | (cases hs : expect (str "rue") rest with
                   | none => rw [hs] at h; simp at h
                   | some x =>
                     have := expect_length _ _ x hs
                     rw [hs] at h; cases h
                     simp only [List.length_cons]; omega)
                | (cases hs : expect (str "alse") rest with
                   | none => rw [hs] at h; simp at h
                   | some x =>
                     have := expect_length _ _ x hs
                     rw [hs] at h; cases h
                     simp only [List.length_cons]; omega)
                | (cases hs : expect (str "ull") rest with
                   | none => rw [hs] at h; simp at h
                   | some x =>
                     have := expect_length _ _ x hs
                     rw [hs] at h; cases h
                     simp only [List.length_cons]; omega)
    · -- parseElems
      intro depth inp acc hlen
      have hsk := skipSpace_length inp
      rw [parseElems.eq_2, parseElems.eq_2]
      cases hs : skipSpace inp with
      | nil => exact ⟨rfl, fun r h => by simp at h⟩
      | cons c rest =>
        rw [hs] at hsk
        simp only [List.length_cons] at hsk
        have hsk2 := skipSpace_length rest
        by_cases h44 : c = 44
        · simp only [if_pos h44]
          obtain ⟨e, l⟩ := ihV depth (skipSpace rest) (by omega)
          rw [e]
          cases hv : parseValue fuel depth (skipSpace rest) with
          | none => exact ⟨rfl, fun r h => by simp at h⟩
          | some x =>
            have lx := l x hv
            obtain ⟨e2, l2⟩ := ihE depth x.2 (acc ++ [x.1]) (by omega)
            refine ⟨e2, fun r h => ?_⟩
            have := l2 r h
            omega
        · simp only [if_neg h44]
          refine ⟨trivial, fun r h => ?_⟩
          split_ifs at h
          cases h
          simp only; omega
    · -- parseMembers
      intro depth inp acc hlen
      cases inp with
      | nil => exact ⟨rfl, fun r h => by simp [parseMembers] at h⟩
      | cons c rest =>
        simp only [List.length_cons] at hlen
        rw [parseMembers.eq_3, parseMembers.eq_3]
        by_cases h34 : c ≠ 34
        · simp only [if_pos h34]
          exact ⟨trivial, fun r h => by simp at h⟩
        · simp only [if_neg h34]
          cases hs : scanString rest with
          | none => exact ⟨rfl, fun r h => by simp at h⟩
          | some x =>
            have lx := scanStringFrom_length rest _ x hs
            simp only
            cases hu : unquote x.1 with
            | none => exact ⟨rfl, fun r h => by simp at h⟩
            | some key =>
              simp only
              have hsk := skipSpace_length x.2
              cases hk : skipSpace x.2 with
              | nil => exact ⟨rfl, fun r h => by simp at h⟩
              | cons c1 r2 =>
                rw [hk] at hsk
                simp only [List.length_cons] at hsk
                by_cases h58 : c1 ≠ 58
                · simp only [if_pos h58]
                  exact ⟨trivial, fun r h => by simp at h⟩
                · simp only [if_neg h58]
                  have hsk2 := skipSpace_length r2
                  obtain ⟨e, l⟩ := ihV depth (skipSpace r2) (by omega)
                  rw [e]
                  cases hv : parseValue fuel depth (skipSpace r2) with
                  | none => exact ⟨rfl, fun r h => by simp at h⟩
                  | some y =>
                    have ly := l y hv
                    simp only
                    have hsk3 := skipSpace_length y.2
                    cases hk3 : skipSpace y.2 with
                    | nil => exact ⟨rfl, fun r h => by simp at h⟩
                    | cons c2 r4 =>
                      rw [hk3] at hsk3
                      simp only [List.length_cons] at hsk3
                      have hsk4 := skipSpace_length r4
                      by_cases h44 : c2 = 44
                      · simp only [if_pos h44]
                        obtain ⟨e2, l2⟩ := ihM depth (skipSpace r4) (acc ++ [(key, y.1)])
                          (by omega)
                        refine ⟨e2, fun r h => ?_⟩
                        have := l2 r h
                        simp only [List.length_cons]; omega
                      · simp only [if_neg h44]
                        refine ⟨trivial, fun r h => ?_⟩
                        split_ifs at h
                        cases h
                        simp only [List.length_cons]; omega

/-- No input is rejected for want of iterations: `jsonParse` gives the parser a
bound of the input length plus one, and every larger bound gives the same
result. -/
theorem parseValue_bound (depth : Nat) (inp : GoString) :
    ∀ k, parseValue (inp.length + 1 + k) depth inp = parseValue (inp.length + 1) depth inp := by
  intro k
  induction k with
  | zero => rfl
  | succ k ih =>
    rw [← ih]
    exact ((parser_bound (inp.length + 1 + k)).1 depth inp (by omega)).1

/-! ## JSON numbers and literals -/

theorem scanDigits_stop (ds : GoString) (c : Nat) (X : GoString)
    (hds : ∀ d ∈ ds, 48 ≤ d ∧ d ≤ 57) (hc : isDigit c = false) :
    scanDigits (ds ++ c :: X) = (ds, c :: X) := by
  induction ds with
  | nil => simp [scanDigits, hc]
  | cons d t ih =>
    have hd := hds d (by simp)
    have hdig : isDigit d = true := by simp [isDigit, hd.1, hd.2]
    have ih' := ih (fun x hx => hds x (by simp [hx]))
    simp [scanDigits, hdig, ih']

/-- The scanner reads back a printed integer that is followed by a comma or a
closing brace. -/
theorem scanNumber_formatInt (n : Int) (c : Nat) (X : GoString) (hc : c = 44 ∨ c = 125) :
    scanNumber (formatInt n ++ c :: X) = some (formatInt n, c :: X) := by
  obtain ⟨ds, h1, h2, h3, h4, h5, h6⟩ := formatInt_spec n
  obtain ⟨d, dt, hdt⟩ := List.exists_cons_of_ne_nil h1
  have hd := h2 d (by simp [hdt])
  have hcd : isDigit c = false := by rcases hc with hc | hc <;> subst hc <;> decide
  have hrest : scanDigits (dt ++ c :: X) = (dt, c :: X) :=
    scanDigits_stop dt c X (fun x hx => h2 x (by simp [hdt, hx])) hcd
  have hfrac : scanFrac (c :: X) = some ([], c :: X) := by
    rcases hc with hc | hc <;> subst hc <;> rfl
  have hexp : scanExp (c :: X) = some ([], c :: X) := by
    rcases hc with hc | hc <;> subst hc <;> simp [scanExp]
  have hint : scanIntPart (formatInt n ++ c :: X) = some (formatInt n, c :: X) := by
    rw [h6]
    by_cases hn : n < 0
    · rw [if_pos hn]
      obtain ⟨d', t', hdt', hd'⟩ := h4 (by omega)
      rw [hdt] at hdt'
      obtain ⟨rfl, rfl⟩ := List.cons.inj hdt'
      have e1 : ¬ d = 48 := by omega
      simp [scanIntPart, hdt, e1, hd', hd.2, hrest]
    · rw [if_neg hn]
      have e45 : ¬ d = 45 := by omega
      by_cases hz : n = 0
      · have := h5 hz
        rw [hdt] at this
        obtain ⟨rfl, rfl⟩ := List.cons.inj this
        simp [scanIntPart, hdt]
      · obtain ⟨d', t', hdt', hd'⟩ := h4 hz
        rw [hdt] at hdt'
        obtain ⟨rfl, rfl⟩ := List.cons.inj hdt'
        have e1 : ¬ d = 48 := by omega
        simp [scanIntPart, hdt, e45, e1, hd', hd.2, hrest]
  simp [scanNumber, hint, hfrac, hexp]

theorem formatInt_head (n : Int) :
    ∃ h tl, formatInt n = h :: tl ∧ (h = 45 ∨ (48 ≤ h ∧ h ≤ 57)) := by
  obtain ⟨ds, h1, h2, -, -, -, h6⟩ := formatInt_spec n
  obtain ⟨d, dt, hdt⟩ := List.exists_cons_of_ne_nil h1
  have hd := h2 d (by simp [hdt])
  by_cases hn : n < 0
  · exact ⟨45, ds, by rw [h6, if_pos hn], Or.inl rfl⟩
  · exact ⟨d, dt, by rw [h6, if_neg hn, hdt], Or.inr hd⟩

theorem skipSpace_cons (c : Nat) (t : GoString) (h : isSpace c = false) :
    skipSpace (c :: t) = c :: t := by
  simp [skipSpace, h]

theorem skipSpace_formatInt (n : Int) (X : GoString) :
    skipSpace (formatInt n ++ X) = formatInt n ++ X := by
  obtain ⟨h, tl, he, hh⟩ := formatInt_head n
  rw [he]
  apply skipSpace_cons
  rcases hh with hh | hh
  · subst hh; decide
  · simp [isSpace]; omega

/-- A printed integer followed by a comma or a closing brace parses as the
number with that literal. -/
theorem parseValue_number (fuel depth : Nat) (n : Int) (c : Nat) (X : GoString)
    (hf : 1 ≤ fuel) (hc : c = 44 ∨ c = 125) :
    parseValue fuel depth (formatInt n ++ c :: X) = some (JSON.num (formatInt n), c :: X) := by
  obtain ⟨g, rfl⟩ : ∃ g, fuel = g + 1 := ⟨fuel - 1, by omega⟩
  have hs := scanNumber_formatInt n c X hc
  obtain ⟨h, tl, he, hh⟩ := formatInt_head n
  rw [he] at hs ⊢
  have e1 : ¬ h = 123 := by omega
  have e2 : ¬ h = 91 := by omega
  have e3 : ¬ h = 34 := by omega
  have e4 : h = 45 ∨ isDigit h = true := by
    rcases hh with hh | hh
    · exact Or.inl hh
    · right; simp [isDigit, hh.1, hh.2]
  rw [List.cons_append, parseValue.eq_3, if_neg e1, if_neg e2, if_neg e3, if_pos e4]
  rw [List.cons_append] at hs
  rw [hs]
  rfl

theorem parseValue_bool (fuel depth : Nat) (b : Bool) (X : GoString) (hf : 1 ≤ fuel) :
    parseValue fuel depth (marshalBool b ++ X) = some (JSON.bool b, X) := by
  obtain ⟨g, rfl⟩ : ∃ g, fuel = g + 1 := ⟨fuel - 1, by omega⟩
  have ht : str "true" = 116 :: str "rue" := by decide
  have hfa : str "false" = 102 :: str "alse" := by decide
  have e1 : ∀ Y, expect (str "rue") (str "rue" ++ Y) = some Y := by
    intro Y
    have : str "rue" = [114, 117, 101] := by decide
    rw [this]; simp [expect]
  have e2 : ∀ Y, expect (str "alse") (str "alse" ++ Y) = some Y := by
    intro Y
    have : str "alse" = [97, 108, 115, 101] := by decide
    rw [this]; simp [expect]
  cases b with
  | true =>
    simp only [marshalBool, if_true, ht, List.cons_append]
    rw [parseValue.eq_3]
    simp [isDigit, e1]
  | false =>
    simp only [marshalBool, Bool.false_eq_true, if_false, hfa, List.cons_append]
    rw [parseValue.eq_3]
    simp [isDigit, e2]

theorem parseValue_null (fuel depth : Nat) (X : GoString) (hf : 1 ≤ fuel) :
    parseValue fuel depth (str "null" ++ X) = some (JSON.null, X) := by
  obtain ⟨g, rfl⟩ : ∃ g, fuel = g + 1 := ⟨fuel - 1, by omega⟩
  have hn : str "null" = 110 :: str "ull" := by decide
  have e1 : expect (str "ull") (str "ull" ++ X) = some X := by
    have : str "ull" = [117, 108, 108] := by decide
    rw [this]; simp [expect]
  simp only [hn, List.cons_append]
  rw [parseValue.eq_3]
  simp [isDigit, e1]

/-- A quoted valid UTF-8 string parses as the string itself. -/
theorem parseValue_string (fuel depth : Nat) (s X : GoString) (hf : 1 ≤ fuel)
    (hs : utf8Valid s = true) :
    parseValue fuel depth (appendString s ++ X) = some (JSON.str s, X) := by
  obtain ⟨g, rfl⟩ : ∃ g, fuel = g + 1 := ⟨fuel - 1, by omega⟩
  obtain ⟨S, U⟩ := string_roundtrip s.length s hs s.length (le_refl _)
  have e : appendString s ++ X = 34 :: (appendStringBody s.length s ++ 34 :: X) := by
    simp [appendString]
  rw [e, parseValue.eq_3]
  simp only [scanString, S X, unquote, U _ (le_refl _)]
  simp

theorem skipSpace_appendString (s X : GoString) :
    skipSpace (appendString s ++ X) = appendString s ++ X := by
  simp [appendString, skipSpace, isSpace]

/-! ## JSON objects and arrays of the `Pokemon` schema -/

/-- The scanner reads a literal without quotes, backslashes and control bytes
up to the closing quote. -/
theorem scanString_plain (key Y : GoString) (h : ∀ c ∈ key, 32 ≤ c ∧ c ≠ 34 ∧ c ≠ 92) :
    scanString (key ++ 34 :: Y) = some (key, Y) := by
  unfold scanString
  induction key with
  | nil => simp [scanStringFrom]
  | cons c cs ih =>
    have hc := h c (by simp)
    have e3 : ¬ c < 32 := by omega
    have ih' := ih (fun x hx => h x (by simp [hx]))
    simp [scanStringFrom, hc.2.1, hc.2.2, e3, ih']

/-- One member of an object that is followed by a comma. -/
theorem parseMembers_comma (fuel depth : Nat) (key V X : GoString)
    (acc : List (GoString × JSON)) (v : JSON)
    (hkey : ∀ c ∈ key, 32 ≤ c ∧ c ≠ 34 ∧ c ≠ 92) (huq : unquote key = some key)
    (hsk : skipSpace (V ++ 44 :: X) = V ++ 44 :: X)
    (hpv : parseValue fuel depth (V ++ 44 :: X) = some (v, 44 :: X)) :
    parseMembers (fuel + 1) depth (34 :: (key ++ 34 :: 58 :: (V ++ 44 :: X))) acc
      = parseMembers fuel depth (skipSpace X) (acc ++ [(key, v)]) := by
  rw [parseMembers.eq_3]
  simp [scanString_plain key _ hkey, huq, skipSpace, isSpace, hsk, hpv]

/-- The last member of an object, followed by the closing brace. -/
theorem parseMembers_close (fuel depth : Nat) (key V X : GoString)
    (acc : List (GoString × JSON)) (v : JSON)
    (hkey : ∀ c ∈ key, 32 ≤ c ∧ c ≠ 34 ∧ c ≠ 92) (huq : unquote key = some key)
    (hsk : skipSpace (V ++ 125 :: X) = V ++ 125 :: X)
    (hpv : parseValue fuel depth (V ++ 125 :: X) = some (v, 125 :: X)) :
    parseMembers (fuel + 1) depth (34 :: (key ++ 34 :: 58 :: (V ++ 125 :: X))) acc
      = some (JSON.obj (acc ++ [(key, v)]), X) := by
  rw [parseMembers.eq_3]
  simp [scanString_plain key _ hkey, huq, skipSpace, isSpace, hsk, hpv]

/-- An object whose first member starts right after the opening brace. -/
theorem parseValue_object (fuel depth : Nat) (X : GoString) (hd : depth < maxNestingDepth) :
    parseValue (fuel + 1) depth (123 :: 34 :: X) = parseMembers fuel (depth + 1) (34 :: X) [] := by
  rw [parseValue.eq_3]
  have hd' : ¬ depth ≥ maxNestingDepth := by omega
  simp [skipSpace, isSpace, hd']

theorem key_facts :
    (∀ c ∈ str "name", 32 ≤ c ∧ c ≠ 34 ∧ c ≠ 92) ∧ unquote (str "name") = some (str "name") ∧
    (∀ c ∈ str "url", 32 ≤ c ∧ c ≠ 34 ∧ c ≠ 92) ∧ unquote (str "url") = some (str "url") ∧
    (∀ c ∈ str "ability", 32 ≤ c ∧ c ≠ 34 ∧ c ≠ 92) ∧
      unquote (str "ability") = some (str "ability") ∧
    (∀ c ∈ str "is_hidden", 32 ≤ c ∧ c ≠ 34 ∧ c ≠ 92) ∧
      unquote (str "is_hidden") = some (str "is_hidden") ∧
    (∀ c ∈ str "slot", 32 ≤ c ∧ c ≠ 34 ∧ c ≠ 92) ∧ unquote (str "slot") = some (str "slot") ∧
    (∀ c ∈ str "abilities", 32 ≤ c ∧ c ≠ 34 ∧ c ≠ 92) ∧
      unquote (str "abilities") = some (str "abilities") ∧
    (∀ c ∈ str "height", 32 ≤ c ∧ c ≠ 34 ∧ c ≠ 92) ∧
      unquote (str "height") = some (str "height") := by
  decide

theorem marshalAbilityInfo_eq (a : AbilityInfo) (X : GoString) :
    marshalAbilityInfo a ++ X =
      123 :: 34 :: (str "name" ++ 34 :: 58 :: (appendString a.Name ++ 44 ::
        34 :: (str "url" ++ 34 :: 58 :: (appendString a.URL ++ 125 :: X)))) := by
  have e1 : str "\x7b\"name\":" = 123 :: 34 :: (str "name" ++ [34, 58]) := by decide
  have e2 : str ",\"url\":" = 44 :: 34 :: (str "url" ++ [34, 58]) := by decide
  have e3 : str "\x7d" = [125] := by decide
  simp only [marshalAbilityInfo, e1, e2, e3, List.append_assoc, List.cons_append,
    List.nil_append]

/-- The text `marshalAbilityInfo a` parses as `infoTree a`. -/
theorem parseValue_info (fuel depth : Nat) (a : AbilityInfo) (X : GoString)
    (hf : 4 ≤ fuel) (hd : depth < maxNestingDepth)
    (hn : utf8Valid a.Name = true) (hu : utf8Valid a.URL = true) :
    parseValue fuel depth (marshalAbilityInfo a ++ X) = some (infoTree a, X) := by
  obtain ⟨g, rfl⟩ : ∃ g, fuel = g + 4 := ⟨fuel - 4, by omega⟩
  obtain ⟨k1, k2, k3, k4, -⟩ := key_facts
  rw [marshalAbilityInfo_eq, parseValue_object (g + 3) depth _ hd,
    parseMembers_comma (g + 2) (depth + 1) _ _ _ _ (JSON.str a.Name) k1 k2
      (skipSpace_appendString _ _) (parseValue_string _ _ _ _ (by omega) hn),
    skipSpace_cons _ _ (by decide),
    parseMembers_close (g + 1) (depth + 1) _ _ _ _ (JSON.str a.URL) k3 k4
      (skipSpace_appendString _ _) (parseValue_string _ _ _ _ (by omega) hu)]
  rfl

theorem skipSpace_info (a : AbilityInfo) (X : GoString) :
    skipSpace (marshalAbilityInfo a ++ X) = marshalAbilityInfo a ++ X := by
  rw [marshalAbilityInfo_eq]
  exact skipSpace_cons _ _ (by decide)

theorem skipSpace_bool (b : Bool) (X : GoString) :
    skipSpace (marshalBool b ++ X) = marshalBool b ++ X := by
  have ht : str "true" = 116 :: str "rue" := by decide
  have hfa : str "false" = 102 :: str "alse" := by decide
  cases b with
  | true =>
    simp only [marshalBool, if_true, ht, List.cons_append]
    exact skipSpace_cons _ _ (by decide)
  | false =>
    simp only [marshalBool, Bool.false_eq_true, if_false, hfa, List.cons_append]
    exact skipSpace_cons _ _ (by decide)

theorem marshalAbility_eq (a : Ability) (X : GoString) :
    marshalAbility a ++ X =
      123 :: 34 :: (str "ability" ++ 34 :: 58 :: (marshalAbilityInfo a.Ability ++ 44 ::
        34 :: (str "is_hidden" ++ 34 :: 58 :: (marshalBool a.IsHidden ++ 44 ::
        34 :: (str "slot" ++ 34 :: 58 :: (formatInt a.Slot ++ 125 :: X)))))) := by
  have e1 : str "\x7b\"ability\":" = 123 :: 34 :: (str "ability" ++ [34, 58]) := by decide
  have e2 : str ",\"is_hidden\":" = 44 :: 34 :: (str "is_hidden" ++ [34, 58]) := by decide
  have e3 : str ",\"slot\":" = 44 :: 34 :: (str "slot" ++ [34, 58]) := by decide
  have e4 : str "\x7d" = [125] := by decide
  simp only [marshalAbility, e1, e2, e3, e4, List.append_assoc, List.cons_append,
    List.nil_append]

/-- The text `marshalAbility a` parses as `abilityTree a`. -/
theorem parseValue_ability (fuel depth : Nat) (a : Ability) (X : GoString)
    (hf : 6 ≤ fuel) (hd : depth + 1 < maxNestingDepth)
    (hn : utf8Valid a.Ability.Name = true) (hu : utf8Valid a.Ability.URL = true) :
    parseValue fuel depth (marshalAbility a ++ X) = some (abilityTree a, X) := by
  obtain ⟨g, rfl⟩ : ∃ g, fuel = g + 6 := ⟨fuel - 6, by omega⟩
  obtain ⟨-, -, -, -, k1, k2, k3, k4, k5, k6, -⟩ := key_facts
  rw [marshalAbility_eq, parseValue_object (g + 5) depth _ (by omega),
    parseMembers_comma (g + 4) (depth + 1) _ _ _ _ (infoTree a.Ability) k1 k2
      (skipSpace_info _ _) (parseValue_info _ _ _ _ (by omega) (by omega) hn hu),
    skipSpace_cons _ _ (by decide),
    parseMembers_comma (g + 3) (depth + 1) _ _ _ _ (JSON.bool a.IsHidden) k3 k4
      (skipSpace_bool _ _) (parseValue_bool _ _ _ _ (by omega)),
    skipSpace_cons _ _ (by decide),
    parseMembers_close (g + 2) (depth + 1) _ _ _ _ (JSON.num (formatInt a.Slot)) k5 k6
      (skipSpace_formatInt _ _) (parseValue_number _ _ _ _ _ (by omega) (Or.inr rfl))]
  rfl

theorem skipSpace_ability (a : Ability) (X : GoString) :
    skipSpace (marshalAbility a ++ X) = marshalAbility a ++ X := by
  rw [marshalAbility_eq]
  exact skipSpace_cons _ _ (by decide)

/-- The rest of an array after its first element. -/
theorem parseElems_tail (depth : Nat) (X : GoString) (hd : depth + 1 < maxNestingDepth) :
    ∀ (l : List Ability) (fuel : Nat) (acc : List JSON), l.length + 7 ≤ fuel →
      (∀ a ∈ l, utf8Valid a.Ability.Name = true ∧ utf8Valid a.Ability.URL = true) →
      parseElems fuel depth (marshalAbilityTail l ++ 93 :: X) acc
        = some (JSON.arr (acc ++ l.map abilityTree), X) := by
  intro l
  induction l with
  | nil =>
    intro fuel acc hf _
    obtain ⟨g, rfl⟩ : ∃ g, fuel = g + 1 := ⟨fuel - 1, by omega⟩
    rw [parseElems.eq_2]
    simp [marshalAbilityTail, skipSpace, isSpace]
  | cons a l ih =>
    intro fuel acc hf hv
    obtain ⟨g, rfl⟩ : ∃ g, fuel = g + 1 := ⟨fuel - 1, by omega⟩
    have ha := hv a (by simp)
    have e : marshalAbilityTail (a :: l) ++ 93 :: X
        = 44 :: (marshalAbility a ++ (marshalAbilityTail l ++ 93 :: X)) := by
      simp [marshalAbilityTail]
    have hl : l.length + 7 ≤ g := by simp at hf; omega
    rw [e, parseElems.eq_2]
    simp only [skipSpace_cons 44 _ (by decide), skipSpace_ability, if_true,
      parseValue_ability g depth a _ (by omega) hd ha.1 ha.2]
    rw [ih g (acc ++ [abilityTree a]) hl (fun x hx => hv x (by simp [hx]))]
    simp

theorem marshalAbilityTail_length (l : List Ability) : l.length ≤ (marshalAbilityTail l).length := by
  induction l with
  | nil => simp [marshalAbilityTail]
  | cons a l ih => simp [marshalAbilityTail]; omega

theorem marshalAbilities_length (o : Option (List Ability)) :
    (o.getD []).length ≤ (marshalAbilities o).length := by
  cases o with
  | none => simp
  | some l =>
    cases l with
    | nil => simp
    | cons a l =>
      have := marshalAbilityTail_length l
      simp [marshalAbilities]
      omega

/-- The text `marshalAbilities o` followed by a comma parses as
`abilitiesTree o`. -/
theorem parseValue_abilities (fuel depth : Nat) (o : Option (List Ability)) (X : GoString)
    (hf : (o.getD []).length + 8 ≤ fuel) (hd : depth + 2 < maxNestingDepth)
    (hv : ∀ a ∈ o.getD [], utf8Valid a.Ability.Name = true ∧ utf8Valid a.Ability.URL = true) :
    parseValue fuel depth (marshalAbilities o ++ X) = some (abilitiesTree o, X) ∧
    skipSpace (marshalAbilities o ++ X) = marshalAbilities o ++ X := by
  obtain ⟨g, rfl⟩ : ∃ g, fuel = g + 1 := ⟨fuel - 1, by omega⟩
  cases o with
  | none =>
    have hn : str "null" = 110 :: str "ull" := by decide
    refine ⟨parseValue_null _ _ _ (by omega), ?_⟩
    simp only [marshalAbilities, hn, List.cons_append]
    exact skipSpace_cons _ _ (by decide)
  | some l =>
    cases l with
    | nil =>
      have e : str "[]" = [91, 93] := by decide
      have hd' : ¬ depth ≥ maxNestingDepth := by omega
      constructor
      · simp only [marshalAbilities, e, List.cons_append, List.nil_append]
        rw [parseValue.eq_3]
        simp [skipSpace, isSpace, hd', abilitiesTree]
      · simp only [marshalAbilities, e, List.cons_append]
        exact skipSpace_cons _ _ (by decide)
    | cons a l =>
      have hd' : ¬ depth ≥ maxNestingDepth := by omega
      have ha := hv a (by simp)
      have e : marshalAbilities (some (a :: l)) ++ X
          = 91 :: (marshalAbility a ++ (marshalAbilityTail l ++ 93 :: X)) := by
        simp [marshalAbilities]
      have hl : l.length + 7 ≤ g := by simp at hf; omega
      have hhead : ∃ Z, marshalAbility a ++ (marshalAbilityTail l ++ 93 :: X) = 123 :: Z :=
        ⟨_, marshalAbility_eq a _⟩
      obtain ⟨Z, hZ⟩ := hhead
      constructor
      · rw [e, parseValue.eq_3]
        have h93 : ¬ (123 : Nat) = 93 := by decide
        simp only [show ¬ (91 : Nat) = 123 by decide, if_false, if_true, hd']
        rw [hZ, skipSpace_cons 123 _ (by decide)]
        simp only [h93, if_false]
        rw [← hZ, parseValue_ability g (depth + 1) a _ (by omega) (by omega) ha.1 ha.2]
        simp only
        rw [parseElems_tail (depth + 1) X (by omega) l g [abilityTree a] hl
          (fun x hx => hv x (by simp [hx]))]
        simp [abilitiesTree]
      · rw [e]
        exact skipSpace_cons _ _ (by decide)

theorem jsonMarshal_eq (p : Pokemon) :
    jsonMarshal p =
      123 :: 34 :: (str "abilities" ++ 34 :: 58 :: (marshalAbilities p.Abilities ++ 44 ::
        34 :: (str "height" ++ 34 :: 58 :: (formatInt p.Height ++ 125 :: [])))) := by
  have e1 : str "\x7b\"abilities\":" = 123 :: 34 :: (str "abilities" ++ [34, 58]) := by decide
  have e2 : str ",\"height\":" = 44 :: 34 :: (str "height" ++ [34, 58]) := by decide
  have e3 : str "\x7d" = [125] := by decide
  simp only [jsonMarshal, e1, e2, e3, List.append_assoc, List.cons_append, List.nil_append]

theorem jsonMarshal_length (p : Pokemon) :
    (p.Abilities.getD []).length + 10 ≤ (jsonMarshal p).length := by
  have := marshalAbilities_length p.Abilities
  rw [jsonMarshal_eq]
  have e1 : (str "abilities").length = 9 := by decide
  have e2 : (str "height").length = 6 := by decide
  simp only [List.length_cons, List.length_append, e1, e2]
  omega

/-- The text `jsonMarshal p` parses as `pokemonTree p`. -/
theorem jsonParse_jsonMarshal (p : Pokemon) (hv : p.textValid = true) :
    jsonParse (jsonMarshal p) = some (pokemonTree p) := by
  have hv' : ∀ a ∈ p.Abilities.getD [],
      utf8Valid a.Ability.Name = true ∧ utf8Valid a.Ability.URL = true := by
    intro a ha
    have := List.all_eq_true.1 hv a ha
    simpa using this
  have hlen := jsonMarshal_length p
  obtain ⟨g, hg⟩ : ∃ g, (jsonMarshal p).length + 1 = g + 3 :=
    ⟨(jsonMarshal p).length - 2, by omega⟩
  obtain ⟨-, -, -, -, -, -, -, -, -, -, k1, k2, k3, k4⟩ := key_facts
  have hA := parseValue_abilities (g + 1) 1 p.Abilities
    (44 :: 34 :: (str "height" ++ 34 :: 58 :: (formatInt p.Height ++ 125 :: [])))
    (by omega) (by decide) hv'
  unfold jsonParse
  rw [hg, jsonMarshal_eq, skipSpace_cons 123 _ (by decide),
    parseValue_object (g + 2) 0 _ (by decide),
    parseMembers_comma (g + 1) 1 _ _ _ _ (abilitiesTree p.Abilities) k1 k2 hA.2 hA.1,
    skipSpace_cons _ _ (by decide),
    parseMembers_close g 1 _ _ _ _ (JSON.num (formatInt p.Height)) k3 k4
      (skipSpace_formatInt _ _) (parseValue_number _ _ _ _ _ (by omega) (Or.inr rfl))]
  simp [skipSpace, pokemonTree]

/-! ## Storing the parsed tree -/

theorem field_facts :
    fieldIndex [str "name", str "url"] (str "name") = some 0 ∧
    fieldIndex [str "name", str "url"] (str "url") = some 1 ∧
    fieldIndex [str "ability", str "is_hidden", str "slot"] (str "ability") = some 0 ∧
    fieldIndex [str "ability", str "is_hidden", str "slot"] (str "is_hidden") = some 1 ∧
    fieldIndex [str "ability", str "is_hidden", str "slot"] (str "slot") = some 2 ∧
    fieldIndex [str "abilities", str "height"] (str "abilities") = some 0 ∧
    fieldIndex [str "abilities", str "height"] (str "height") = some 1 := by
  decide

theorem decodeAbilityInfo_tree (cur a : AbilityInfo) :
    decodeAbilityInfo cur (infoTree a) = some a := by
  obtain ⟨f1, f2, -⟩ := field_facts
  simp [decodeAbilityInfo, infoTree, decodeAbilityInfoField, f1, f2, decodeString]

theorem decodeAbility_tree (cur a : Ability) (hs : isInt64 a.Slot = true) :
    decodeAbility cur (abilityTree a) = some a := by
  obtain ⟨-, -, f1, f2, f3, -⟩ := field_facts
  have hr : parseInt (formatInt a.Slot) = some a.Slot := by
    simp only [isInt64, decide_eq_true_eq] at hs
    exact parseInt_formatInt _ hs.1 hs.2
  simp [decodeAbility, abilityTree, decodeAbilityField, f1, f2, f3, decodeAbilityInfo_tree,
    decodeBool, decodeInt, hr]

theorem decodeElems_trees (l : List Ability) (hs : ∀ a ∈ l, isInt64 a.Slot = true) :
    decodeElems [] (l.map abilityTree) = some l := by
  induction l with
  | nil => rfl
  | cons a l ih =>
    have ha := hs a (by simp)
    have ih' := ih (fun x hx => hs x (by simp [hx]))
    simp [decodeElems, decodeAbility_tree _ a ha, ih']

theorem decodeAbilities_tree (o : Option (List Ability))
    (hs : ∀ a ∈ o.getD [], isInt64 a.Slot = true) :
    ∃ stale, decodeAbilities none [] (abilitiesTree o) = some (o, stale) := by
  cases o with
  | none => exact ⟨[], rfl⟩
  | some l =>
    cases l with
    | nil => exact ⟨[], rfl⟩
    | cons a l =>
      have h := decodeElems_trees (a :: l) hs
      simp only [List.map_cons] at h
      exact ⟨[], by simp [decodeAbilities, abilitiesTree, h]⟩

theorem decodePokemon_tree (p : Pokemon) (hi : p.intsInRange = true) :
    ∃ stale, decodePokemon (Pokemon.zero, []) (pokemonTree p) = some (p, stale) := by
  obtain ⟨-, -, -, -, -, f1, f2⟩ := field_facts
  simp only [Pokemon.intsInRange, Bool.and_eq_true, List.all_eq_true] at hi
  obtain ⟨stale, hA⟩ := decodeAbilities_tree p.Abilities hi.2
  have hr : parseInt (formatInt p.Height) = some p.Height := by
    have := hi.1
    simp only [isInt64, decide_eq_true_eq] at this
    exact parseInt_formatInt _ this.1 this.2
  refine ⟨stale, ?_⟩
  simp [decodePokemon, pokemonTree, decodePokemonField, f1, f2, Pokemon.zero, hA, decodeInt, hr]

/-- Unmarshalling what `jsonMarshal` wrote gives the record back, when its
strings are valid UTF-8 and its integers are Go `int`s. -/
theorem jsonUnmarshal_jsonMarshal (p : Pokemon) (hv : p.textValid = true)
    (hi : p.intsInRange = true) : jsonUnmarshal (jsonMarshal p) = .ok p := by
  obtain ⟨stale, hd⟩ := decodePokemon_tree p hi
  simp [jsonUnmarshal, jsonParse_jsonMarshal p hv, hd]

/-- Claim C8, refuted as stated.  The record `invalidNameRecord`, whose ability
name is the single byte `0xFF`, is marshalled with the name replaced by the
escape of U+FFFD, so a 200 response carrying its marshalling makes
`getPokemonData` return (without error) a record different from it: the name
comes back as the three bytes `EF BF BD`. -/
theorem getPokemonData_roundtrip_fails_invalid_utf8 :
    getPokemonData (serve (jsonMarshal invalidNameRecord)) (str "ditto")
      ≠ (invalidNameRecord, none) ∧
    getPokemonData (serve (jsonMarshal invalidNameRecord)) (str "ditto")
      = (replacedNameRecord, none) ∧
    utf8Valid [0xFF] = false := by
  decide

/-- Claim C8, amended.  For every record `p` whose ability names and URLs are
valid UTF-8 (the integers being Go `int`s), a 200 upstream response whose body
is `json.Marshal(p)` makes `getPokemonData` return `p` and no error; so the
abilities (number, order and every field) and the height are those of the
payload, and marshalling the result again gives the same text. -/
theorem getPokemonData_roundtrip (httpGet : GoString → Except GoString Response)
    (pokemonName : GoString) (resp : Response) (p : Pokemon)
    (hget : httpGet (str "https://pokeapi.co/api/v2/pokemon/" ++ pokemonName) = .ok resp)
    (hcode : resp.StatusCode = 200) (hbody : resp.Body = .ok (jsonMarshal p))
    (hv : p.textValid = true) (hi : p.intsInRange = true) :
    getPokemonData httpGet pokemonName = (p, none) ∧
    (getPokemonData httpGet pokemonName).1.Abilities = p.Abilities ∧
    (getPokemonData httpGet pokemonName).1.Height = p.Height ∧
    jsonMarshal (getPokemonData httpGet pokemonName).1 = jsonMarshal p := by
  have h : getPokemonData httpGet pokemonName = (p, none) := by
    simp [getPokemonData, hget, hcode, hbody, jsonUnmarshal_jsonMarshal p hv hi]
  rw [h]
  exact ⟨rfl, rfl, rfl, rfl⟩

set_option maxRecDepth 100000 in
/-- Claim C8 (amended) at the fixture for `ditto`: two abilities, height 3. -/
theorem getPokemonData_roundtrip_witness :
    getPokemonData (serve (jsonMarshal dittoRecord)) (str "ditto") = (dittoRecord, none) :=
  (getPokemonData_roundtrip (serve (jsonMarshal dittoRecord)) (str "ditto")
    { StatusCode := 200, Body := .ok (jsonMarshal dittoRecord) } dittoRecord rfl rfl rfl
    (by decide) (by decide)).1

end Server
